import Mathlib

/-!
Verification of the cooperative scheduler and expiration-time converter

Shallow embedding of the scheduler in `src/unnamed/part_000` (the React
`Scheduler` module) and of `src/packages/react-reconciler/src/ReactFiberExpirationTime.js`.

Modelling conventions:
* The circular doubly-linked callback list rooted at `firstCallbackNode` is
  embedded as the `List CallbackNode` obtained by walking `next` pointers from
  `firstCallbackNode` until wrapping around (`firstCallbackNode = null` is `[]`).
  A node's link fields are non-null exactly when it occurs in that list.
* JS callbacks are embedded as the inductive `Cb`: a callback either returns a
  non-function (`Cb.ret`), returns a continuation callback (`Cb.cont`),
  or throws (`Cb.exn`).  Re-entrant calls back into the scheduler from inside a
  callback are outside this model.
* The host adapter (`getCurrentTime` / `shouldYieldToHost`) is embedded as two
  oracles indexed by call count: `clock : Nat → Int` gives the successive
  results of `getCurrentTime`, and `yields : Nat → Bool` the successive results
  of `shouldYieldToHost`.  Calls to `requestHostCallback` / `cancelHostCallback`
  and to `shouldYieldToHost`, as well as callback invocations, are recorded in
  an event trace.
* JS numbers are embedded as `Int` (all quantities involved are integral and
  far below 2^53, so double arithmetic is exact); the `| 0` truncation used by
  `ReactFiberExpirationTime.js` is `Int.div` (truncation toward zero).
* `try { … } finally { … }` is embedded by performing the `finally` state
  updates on every branch and returning an `err` flag that is `true` when the
  JS code would propagate an exception.
-/

/-- Priority constant from `Scheduler.js`: `var ImmediatePriority = 1`. -/
def ImmediatePriority : Nat := 1

/-- Priority constant from `Scheduler.js`: `var UserBlockingPriority = 2`. -/
def UserBlockingPriority : Nat := 2

/-- Priority constant from `Scheduler.js`: `var NormalPriority = 3`. -/
def NormalPriority : Nat := 3

/-- Priority constant from `Scheduler.js`: `var LowPriority = 4`. -/
def LowPriority : Nat := 4

/-- Priority constant from `Scheduler.js`: `var IdlePriority = 5`. -/
def IdlePriority : Nat := 5

/-- Constant `var maxSigned31BitInt = 1073741823` (max 31-bit signed integer). -/
def maxSigned31BitInt : Int := 1073741823

/-- Constant `var IMMEDIATE_PRIORITY_TIMEOUT = -1` (times out immediately). -/
def IMMEDIATE_PRIORITY_TIMEOUT : Int := -1

/-- Constant `var USER_BLOCKING_PRIORITY = 250`. -/
def USER_BLOCKING_PRIORITY : Int := 250

/-- Constant `var NORMAL_PRIORITY_TIMEOUT = 5000`. -/
def NORMAL_PRIORITY_TIMEOUT : Int := 5000

/-- Constant `var LOW_PRIORITY_TIMEOUT = 10000`. -/
def LOW_PRIORITY_TIMEOUT : Int := 10000

/-- Constant `var IDLE_PRIORITY = maxSigned31BitInt` (never times out). -/
def IDLE_PRIORITY : Int := maxSigned31BitInt

/-- Modelled from the spec: the `enableSchedulerDebugging` flag imported from
`./SchedulerFeatureFlags`, a file that is not under `src/`.  The spec treats
pausing as a debugging facility (§6: "global halt/resume of dispatch, for
debugging"); the feature flag that enables it is off. -/
def enableSchedulerDebugging : Bool := false

/-- A scheduler callback, as observable by the scheduler core: it either
returns a non-function value, returns a continuation callback, or throws. -/
inductive Cb where
  | ret : Cb
  | cont : Cb → Cb
  | exn : Cb
deriving DecidableEq, Repr

/-- Predicate `cbNoThrow c` holds when running `c` (and every continuation it produces)
never throws. -/
def cbNoThrow : Cb → Bool
  | Cb.ret => true
  | Cb.cont c => cbNoThrow c
  | Cb.exn => false

/-- A work item of the callback queue (`var newNode = {callback, priorityLevel,
expirationTime, next, previous}`).  The `next`/`previous` link fields are
represented by membership in the queue list; `id` stands for the JS object
identity of the node. -/
structure CallbackNode where
  id : Nat
  callback : Cb
  priorityLevel : Nat
  expirationTime : Int
deriving DecidableEq, Repr

/-- Observable interactions of the scheduler core with its host and callers. -/
inductive Event where
  | exec : Nat → Event
  | yieldCheck : Event
  | hostRequest : Int → Event
  | hostCancel : Event
deriving DecidableEq, Repr

/-- The module-level mutable state of `Scheduler.js`. -/
structure SchedState where
  queue : List CallbackNode
  currentDidTimeout : Bool
  isSchedulerPaused : Bool
  currentPriorityLevel : Nat
  currentEventStartTime : Int
  currentExpirationTime : Int
  isExecutingCallback : Bool
  isHostCallbackScheduled : Bool
deriving DecidableEq, Repr

/-- Result of running a scheduler entry point: the state after all `finally`
blocks have run, the trace of host interactions and callback invocations, and
whether a JS exception propagates out (`err = true`). -/
structure FlushResult where
  s : SchedState
  tr : List Event
  err : Bool
deriving DecidableEq, Repr

/-- The queue invariant: expiration times are ascending from the head
(`firstCallbackNode`) to the tail. -/
def QueueSorted (q : List CallbackNode) : Prop :=
  q.Pairwise (fun a b => a.expirationTime ≤ b.expirationTime)

/-- Insertion performed by `unstable_scheduleCallback`: walk from
`firstCallbackNode`, stop at the first node whose `expirationTime` is strictly
greater than the new node's, and insert before it (at the end if none is
found). -/
def scheduleInsert (n : CallbackNode) : List CallbackNode → List CallbackNode
  | [] => [n]
  | x :: xs =>
    if x.expirationTime > n.expirationTime then n :: x :: xs
    else x :: scheduleInsert n xs

/-- Insertion performed by `flushFirstCallback` for a continuation: walk from
`firstCallbackNode`, stop at the first node whose `expirationTime` is greater
than *or equal to* the continuation's, and insert before it (at the end if
none is found). -/
def continuationInsert (n : CallbackNode) : List CallbackNode → List CallbackNode
  | [] => [n]
  | x :: xs =>
    if x.expirationTime ≥ n.expirationTime then n :: x :: xs
    else x :: continuationInsert n xs

theorem mem_scheduleInsert {n x : CallbackNode} {xs : List CallbackNode} :
    x ∈ scheduleInsert n xs ↔ x = n ∨ x ∈ xs := by
  induction xs with
  | nil => simp [scheduleInsert]
  | cons y ys ih =>
    simp only [scheduleInsert]
    split
    · simp [List.mem_cons]
    · simp only [List.mem_cons, ih]
      tauto

theorem mem_continuationInsert {n x : CallbackNode} {xs : List CallbackNode} :
    x ∈ continuationInsert n xs ↔ x = n ∨ x ∈ xs := by
  induction xs with
  | nil => simp [continuationInsert]
  | cons y ys ih =>
    simp only [continuationInsert]
    split
    · simp [List.mem_cons]
    · simp only [List.mem_cons, ih]
      tauto

theorem scheduleInsert_sorted {n : CallbackNode} {xs : List CallbackNode}
    (h : QueueSorted xs) : QueueSorted (scheduleInsert n xs) := by
  induction xs with
  | nil => simp [scheduleInsert, QueueSorted]
  | cons y ys ih =>
    simp only [QueueSorted, List.pairwise_cons] at h
    simp only [scheduleInsert]
    split
    · rename_i hgt
      simp only [QueueSorted, List.pairwise_cons, List.mem_cons]
      refine ⟨?_, h.1, h.2⟩
      rintro z (rfl | hz)
      · omega
      · have := h.1 z hz
        omega
    · rename_i hle
      simp only [QueueSorted, List.pairwise_cons]
      refine ⟨?_, ih h.2⟩
      intro z hz
      rcases mem_scheduleInsert.1 hz with rfl | hz
      · omega
      · exact h.1 z hz

theorem continuationInsert_sorted {n : CallbackNode} {xs : List CallbackNode}
    (h : QueueSorted xs) : QueueSorted (continuationInsert n xs) := by
  induction xs with
  | nil => simp [continuationInsert, QueueSorted]
  | cons y ys ih =>
    simp only [QueueSorted, List.pairwise_cons] at h
    simp only [continuationInsert]
    split
    · rename_i hge
      simp only [QueueSorted, List.pairwise_cons, List.mem_cons]
      refine ⟨?_, h.1, h.2⟩
      rintro z (rfl | hz)
      · omega
      · have := h.1 z hz
        omega
    · rename_i hlt
      simp only [QueueSorted, List.pairwise_cons]
      refine ⟨?_, ih h.2⟩
      intro z hz
      rcases mem_continuationInsert.1 hz with rfl | hz
      · omega
      · exact h.1 z hz

theorem scheduleInsert_split {n : CallbackNode} {xs : List CallbackNode}
    (h : QueueSorted xs) :
    ∃ l r, xs = l ++ r ∧ scheduleInsert n xs = l ++ n :: r ∧
      (∀ x ∈ l, x.expirationTime ≤ n.expirationTime) ∧
      (∀ x ∈ r, n.expirationTime < x.expirationTime) := by
  induction xs with
  | nil => exact ⟨[], [], rfl, rfl, by simp, by simp⟩
  | cons y ys ih =>
    simp only [QueueSorted, List.pairwise_cons] at h
    simp only [scheduleInsert]
    split
    · rename_i hgt
      refine ⟨[], y :: ys, rfl, rfl, by simp, ?_⟩
      intro x hx
      rcases List.mem_cons.1 hx with rfl | hx
      · omega
      · have := h.1 x hx
        omega
    · rename_i hle
      obtain ⟨l, r, hsplit, hins, hl, hr⟩ := ih h.2
      refine ⟨y :: l, r, by simp [hsplit], by simp [hins], ?_, hr⟩
      intro x hx
      rcases List.mem_cons.1 hx with rfl | hx
      · omega
      · exact hl x hx

theorem continuationInsert_split {n : CallbackNode} {xs : List CallbackNode}
    (h : QueueSorted xs) :
    ∃ l r, xs = l ++ r ∧ continuationInsert n xs = l ++ n :: r ∧
      (∀ x ∈ l, x.expirationTime < n.expirationTime) ∧
      (∀ x ∈ r, n.expirationTime ≤ x.expirationTime) := by
  induction xs with
  | nil => exact ⟨[], [], rfl, rfl, by simp, by simp⟩
  | cons y ys ih =>
    simp only [QueueSorted, List.pairwise_cons] at h
    simp only [continuationInsert]
    split
    · rename_i hge
      refine ⟨[], y :: ys, rfl, rfl, by simp, ?_⟩
      intro x hx
      rcases List.mem_cons.1 hx with rfl | hx
      · omega
      · have := h.1 x hx
        omega
    · rename_i hlt
      obtain ⟨l, r, hsplit, hins, hl, hr⟩ := ih h.2
      refine ⟨y :: l, r, by simp [hsplit], by simp [hins], ?_, hr⟩
      intro x hx
      rcases List.mem_cons.1 hx with rfl | hx
      · omega
      · exact hl x hx

/-- Claim C1: The callback queue is kept sorted ascending by expiration by both
insertion paths; `unstable_scheduleCallback` places a new item after all
existing items of less-or-equal expiration (in particular, after all items of
equal expiration, FIFO among equals), whereas the continuation re-insertion in
`flushFirstCallback` places the continuation before all existing items of
greater-or-equal expiration (in particular, before all items of equal
expiration). -/
theorem C1_queue_insertion_order (n : CallbackNode) (xs : List CallbackNode)
    (h : QueueSorted xs) :
    QueueSorted (scheduleInsert n xs) ∧ QueueSorted (continuationInsert n xs) ∧
    (∃ l r, xs = l ++ r ∧ scheduleInsert n xs = l ++ n :: r ∧
      (∀ x ∈ l, x.expirationTime ≤ n.expirationTime) ∧
      (∀ x ∈ r, n.expirationTime < x.expirationTime)) ∧
    (∃ l r, xs = l ++ r ∧ continuationInsert n xs = l ++ n :: r ∧
      (∀ x ∈ l, x.expirationTime < n.expirationTime) ∧
      (∀ x ∈ r, n.expirationTime ≤ x.expirationTime)) :=
  ⟨scheduleInsert_sorted h, continuationInsert_sorted h,
    scheduleInsert_split h, continuationInsert_split h⟩

/-- Witness for C1 at a concrete sorted queue with a tie at expiration 5. -/
theorem C1_queue_insertion_order_witness :
    QueueSorted [⟨10, Cb.ret, 3, 2⟩, ⟨11, Cb.ret, 3, 5⟩, ⟨12, Cb.ret, 4, 9⟩] ∧
    (QueueSorted (scheduleInsert ⟨13, Cb.ret, 3, 5⟩
        [⟨10, Cb.ret, 3, 2⟩, ⟨11, Cb.ret, 3, 5⟩, ⟨12, Cb.ret, 4, 9⟩]) ∧
     QueueSorted (continuationInsert ⟨13, Cb.ret, 3, 5⟩
        [⟨10, Cb.ret, 3, 2⟩, ⟨11, Cb.ret, 3, 5⟩, ⟨12, Cb.ret, 4, 9⟩]) ∧
     (∃ l r,
        [⟨10, Cb.ret, 3, 2⟩, ⟨11, Cb.ret, 3, 5⟩, ⟨12, Cb.ret, 4, 9⟩] = l ++ r ∧
        scheduleInsert ⟨13, Cb.ret, 3, 5⟩
          [⟨10, Cb.ret, 3, 2⟩, ⟨11, Cb.ret, 3, 5⟩, ⟨12, Cb.ret, 4, 9⟩] =
            l ++ ⟨13, Cb.ret, 3, 5⟩ :: r ∧
        (∀ x ∈ l, x.expirationTime ≤ (5 : Int)) ∧
        (∀ x ∈ r, (5 : Int) < x.expirationTime)) ∧
     (∃ l r,
        [⟨10, Cb.ret, 3, 2⟩, ⟨11, Cb.ret, 3, 5⟩, ⟨12, Cb.ret, 4, 9⟩] = l ++ r ∧
        continuationInsert ⟨13, Cb.ret, 3, 5⟩
          [⟨10, Cb.ret, 3, 2⟩, ⟨11, Cb.ret, 3, 5⟩, ⟨12, Cb.ret, 4, 9⟩] =
            l ++ ⟨13, Cb.ret, 3, 5⟩ :: r ∧
        (∀ x ∈ l, x.expirationTime < (5 : Int)) ∧
        (∀ x ∈ r, (5 : Int) ≤ x.expirationTime))) := by
  constructor
  · simp only [QueueSorted, List.pairwise_cons, List.mem_cons]
    refine ⟨?_, ?_, ?_, ?_⟩ <;> simp_all
  · exact C1_queue_insertion_order ⟨13, Cb.ret, 3, 5⟩
      [⟨10, Cb.ret, 3, 2⟩, ⟨11, Cb.ret, 3, 5⟩, ⟨12, Cb.ret, 4, 9⟩]
      (by simp only [QueueSorted, List.pairwise_cons, List.mem_cons]
          refine ⟨?_, ?_, ?_, ?_⟩ <;> simp_all)

/-- Function `ensureHostCallbackIsScheduled`: no-op while a callback is executing;
otherwise requests a host callback at the earliest expiration in the list,
cancelling a previously scheduled one first.  (The source dereferences
`firstCallbackNode` unconditionally; every call site guards a non-empty list,
so the empty case below is unreachable in the embedded call graph.) -/
def ensureHostCallbackIsScheduled (s : SchedState) : SchedState × List Event :=
  if s.isExecutingCallback then (s, [])
  else
    match s.queue with
    | [] => (s, [])
    | n :: _ =>
      if s.isHostCallbackScheduled then
        (s, [Event.hostCancel, Event.hostRequest n.expirationTime])
      else
        ({ s with isHostCallbackScheduled := true },
         [Event.hostRequest n.expirationTime])

/-- Function `flushFirstCallback`: unlink the head node from the list (so the list is
consistent even if the callback throws), run its callback with the ambient
priority/expiration set to the node's and restored in a `finally` block, and
re-insert a returned continuation before nodes of equal expiration (calling
`ensureHostCallbackIsScheduled` when the continuation becomes the new head of
a non-empty list). -/
def flushFirstCallback (s : SchedState) : FlushResult :=
  match s.queue with
  | [] => ⟨s, [], true⟩
  | flushedNode :: rest =>
    let previousPriorityLevel := s.currentPriorityLevel
    let previousExpirationTime := s.currentExpirationTime
    let s2 := { s with queue := rest,
                       currentPriorityLevel := flushedNode.priorityLevel,
                       currentExpirationTime := flushedNode.expirationTime }
    match flushedNode.callback with
    | Cb.exn =>
      ⟨{ s2 with currentPriorityLevel := previousPriorityLevel,
                 currentExpirationTime := previousExpirationTime },
       [Event.exec flushedNode.id], true⟩
    | Cb.ret =>
      ⟨{ s2 with currentPriorityLevel := previousPriorityLevel,
                 currentExpirationTime := previousExpirationTime },
       [Event.exec flushedNode.id], false⟩
    | Cb.cont c =>
      let s3 := { s2 with currentPriorityLevel := previousPriorityLevel,
                          currentExpirationTime := previousExpirationTime }
      let continuationNode : CallbackNode :=
        ⟨flushedNode.id, c, flushedNode.priorityLevel, flushedNode.expirationTime⟩
      match rest with
      | [] => ⟨{ s3 with queue := [continuationNode] },
               [Event.exec flushedNode.id], false⟩
      | head :: _ =>
        if head.expirationTime ≥ continuationNode.expirationTime then
          let t := ensureHostCallbackIsScheduled
            { s3 with queue := continuationInsert continuationNode rest }
          ⟨t.1, Event.exec flushedNode.id :: t.2, false⟩
        else
          ⟨{ s3 with queue := continuationInsert continuationNode rest },
           [Event.exec flushedNode.id], false⟩

/-- Structural size of a callback: how many times it can still continue. -/
def cbSize : Cb → Nat
  | Cb.ret => 0
  | Cb.exn => 0
  | Cb.cont c => cbSize c + 1

/-- Termination measure for the flush loops: a flush removes the head node and
re-inserts at most a structurally smaller continuation. -/
def nodeWeight (n : CallbackNode) : Nat := cbSize n.callback + 1

/-- Total weight of a queue. -/
def queueWeight (q : List CallbackNode) : Nat := (q.map nodeWeight).sum

/-- Inner loop of the `didTimeout` branch of `flushWork`:
`do { flushFirstCallback(); } while (firstCallbackNode !== null &&
firstCallbackNode.expirationTime <= currentTime && !(debugging && paused))`.
The fuel argument only bounds the iteration count; `flushExpiredBatch` supplies
fuel that provably suffices. -/
def flushExpiredBatchGo (t : Int) : Nat → SchedState → FlushResult
  | fuel, s =>
    let r := flushFirstCallback s
    if r.err then r
    else
      match r.s.queue with
      | [] => r
      | n :: _ =>
        if n.expirationTime ≤ t then
          if enableSchedulerDebugging && r.s.isSchedulerPaused then r
          else
            match fuel with
            | 0 => r
            | fuel' + 1 =>
              let r2 := flushExpiredBatchGo t fuel' r.s
              ⟨r2.s, r.tr ++ r2.tr, r2.err⟩
        else r

/-- The inner expired-callback loop with sufficient fuel. -/
def flushExpiredBatch (t : Int) (s : SchedState) : FlushResult :=
  flushExpiredBatchGo t (queueWeight s.queue) s

/-- Outer loop of the `didTimeout` branch of `flushWork`: re-read the current
time, flush all callbacks that expire at or before it, and repeat; `k` indexes
the successive `getCurrentTime` calls. -/
def flushTimedOutLoopGo (clock : Nat → Int) : Nat → Nat → SchedState → FlushResult
  | fuel, k, s =>
    match s.queue with
    | [] => ⟨s, [], false⟩
    | n :: _ =>
      if enableSchedulerDebugging && s.isSchedulerPaused then ⟨s, [], false⟩
      else if n.expirationTime ≤ clock k then
        let r := flushExpiredBatch (clock k) s
        if r.err then r
        else
          match fuel with
          | 0 => r
          | fuel' + 1 =>
            let r2 := flushTimedOutLoopGo clock fuel' (k + 1) r.s
            ⟨r2.s, r.tr ++ r2.tr, r2.err⟩
      else ⟨s, [], false⟩

/-- The outer timed-out loop with sufficient fuel. -/
def flushTimedOutLoop (clock : Nat → Int) (k : Nat) (s : SchedState) : FlushResult :=
  flushTimedOutLoopGo clock (queueWeight s.queue) k s

/-- The `didTimeout === false` branch of `flushWork`:
`do { flushFirstCallback(); } while (firstCallbackNode !== null &&
!shouldYieldToHost())`, with the debugging break at the top of the body; `j`
indexes the successive `shouldYieldToHost` calls, each recorded as a
`yieldCheck` event. -/
def flushUntilYieldLoopGo (yields : Nat → Bool) : Nat → Nat → SchedState → FlushResult
  | fuel, j, s =>
    if enableSchedulerDebugging && s.isSchedulerPaused then ⟨s, [], false⟩
    else
      let r := flushFirstCallback s
      if r.err then r
      else
        match r.s.queue with
        | [] => r
        | _ :: _ =>
          if yields j then ⟨r.s, r.tr ++ [Event.yieldCheck], false⟩
          else
            match fuel with
            | 0 => ⟨r.s, r.tr ++ [Event.yieldCheck], false⟩
            | fuel' + 1 =>
              let r2 := flushUntilYieldLoopGo yields fuel' (j + 1) r.s
              ⟨r2.s, r.tr ++ [Event.yieldCheck] ++ r2.tr, r2.err⟩

/-- The until-yield loop with sufficient fuel. -/
def flushUntilYieldLoop (yields : Nat → Bool) (j : Nat) (s : SchedState) : FlushResult :=
  flushUntilYieldLoopGo yields (queueWeight s.queue) j s

/-- Loop body of `flushImmediateWork`:
`do { flushFirstCallback(); } while (firstCallbackNode !== null &&
firstCallbackNode.priorityLevel === ImmediatePriority)`. -/
def flushImmediateLoopGo : Nat → SchedState → FlushResult
  | fuel, s =>
    let r := flushFirstCallback s
    if r.err then r
    else
      match r.s.queue with
      | [] => r
      | n :: _ =>
        if n.priorityLevel = ImmediatePriority then
          match fuel with
          | 0 => r
          | fuel' + 1 =>
            let r2 := flushImmediateLoopGo fuel' r.s
            ⟨r2.s, r.tr ++ r2.tr, r2.err⟩
        else r

/-- Function `flushImmediateWork`: if the outermost event handler has been exited
(`currentEventStartTime === -1`) and the head of the list is an
Immediate-priority callback, drain Immediate callbacks from the head; in a
`finally` block, clear the re-entrancy guard and either re-request a host
callback (work remaining) or mark none scheduled. -/
def flushImmediateWork (s : SchedState) : FlushResult :=
  match s.queue with
  | [] => ⟨s, [], false⟩
  | n :: _ =>
    if s.currentEventStartTime = -1 ∧ n.priorityLevel = ImmediatePriority then
      let s0 := { s with isExecutingCallback := true }
      let r := flushImmediateLoopGo (queueWeight s0.queue) s0
      let s1 := { r.s with isExecutingCallback := false }
      match s1.queue with
      | [] => ⟨{ s1 with isHostCallbackScheduled := false }, r.tr, r.err⟩
      | _ :: _ =>
        let p := ensureHostCallbackIsScheduled s1
        ⟨p.1, r.tr ++ p.2, r.err⟩
    else ⟨s, [], false⟩

/-- The `finally` block of `flushWork`, applied to the result `r` of the try
section: clear the re-entrancy guard, restore the previous `currentDidTimeout`
(`previousDidTimeout`), re-request a host callback if work remains (otherwise
mark no host callback scheduled), and flush immediate work before returning. -/
def flushWorkFinally (previousDidTimeout : Bool) (r : FlushResult) : FlushResult :=
  let s1 := { r.s with isExecutingCallback := false,
                       currentDidTimeout := previousDidTimeout }
  match s1.queue with
  | [] =>
    let r2 := flushImmediateWork { s1 with isHostCallbackScheduled := false }
    ⟨r2.s, r.tr ++ r2.tr, r.err || r2.err⟩
  | _ :: _ =>
    let p := ensureHostCallbackIsScheduled s1
    let r2 := flushImmediateWork p.1
    ⟨r2.s, r.tr ++ p.2 ++ r2.tr, r.err || r2.err⟩

/-- Function `flushWork(didTimeout)`: set the re-entrancy guard and the synthetic
timeout flag; in the `didTimeout` case drain all expired callbacks without
yielding (re-reading the time between batches), otherwise flush callbacks
until the host asks to yield; the `finally` block (`flushWorkFinally`) runs on
every exit path, also when a callback throw is propagating. -/
def flushWork (clock : Nat → Int) (yields : Nat → Bool) (didTimeout : Bool)
    (s : SchedState) : FlushResult :=
  if enableSchedulerDebugging && s.isSchedulerPaused then ⟨s, [], false⟩
  else
    let s0 := { s with isExecutingCallback := true, currentDidTimeout := didTimeout }
    let r :=
      if didTimeout then flushTimedOutLoop clock 0 s0
      else
        match s0.queue with
        | [] => ⟨s0, [], false⟩
        | _ :: _ => flushUntilYieldLoop yields 0 s0
    flushWorkFinally s.currentDidTimeout r

/-- Function `unstable_scheduleCallback(callback, deprecated_options)`: compute the
start time (the shared event start time when inside an event, else the current
time `now`), derive the expiration from the explicit `options.timeout` if one
is supplied and from the ambient priority level otherwise, build the new node
(`newId` stands for the fresh object identity) and insert it into the list
sorted by expiration (after nodes of equal expiration), scheduling a host
callback when the new node becomes the head.  Returns the new node (the
cancellation handle), the new state, and the host-interaction events. -/
def unstable_scheduleCallback (now : Int) (callback : Cb) (newId : Nat)
    (options : Option Int) (s : SchedState) :
    CallbackNode × SchedState × List Event :=
  let startTime := if s.currentEventStartTime ≠ -1 then s.currentEventStartTime else now
  let expirationTime :=
    match options with
    | some timeout => startTime + timeout
    | none =>
      if s.currentPriorityLevel = ImmediatePriority then
        startTime + IMMEDIATE_PRIORITY_TIMEOUT
      else if s.currentPriorityLevel = UserBlockingPriority then
        startTime + USER_BLOCKING_PRIORITY
      else if s.currentPriorityLevel = IdlePriority then
        startTime + IDLE_PRIORITY
      else if s.currentPriorityLevel = LowPriority then
        startTime + LOW_PRIORITY_TIMEOUT
      else
        startTime + NORMAL_PRIORITY_TIMEOUT
  let newNode : CallbackNode := ⟨newId, callback, s.currentPriorityLevel, expirationTime⟩
  match s.queue with
  | [] =>
    let p := ensureHostCallbackIsScheduled { s with queue := [newNode] }
    (newNode, p.1, p.2)
  | head :: _ =>
    if head.expirationTime > expirationTime then
      let p := ensureHostCallbackIsScheduled { s with queue := scheduleInsert newNode s.queue }
      (newNode, p.1, p.2)
    else
      (newNode, { s with queue := scheduleInsert newNode s.queue }, [])

/-- Function `unstable_getCurrentPriorityLevel`. -/
def unstable_getCurrentPriorityLevel (s : SchedState) : Nat :=
  s.currentPriorityLevel

/-- Function `unstable_runWithPriority(priorityLevel, eventHandler)`: normalize an
invalid priority to Normal, save the ambient priority level and event start
time, set them to the given priority and the current time `now`, run the
handler, and in a `finally` block restore both ambient values and flush
immediate work.  The handler is embedded as a state transformer returning a
`FlushResult` (its `err` flag marks a thrown exception). -/
def unstable_runWithPriority (now : Int) (eventHandler : SchedState → FlushResult)
    (priorityLevel : Nat) (s : SchedState) : FlushResult :=
  let p :=
    if priorityLevel = ImmediatePriority ∨ priorityLevel = UserBlockingPriority ∨
       priorityLevel = NormalPriority ∨ priorityLevel = LowPriority ∨
       priorityLevel = IdlePriority then priorityLevel
    else NormalPriority
  let s1 := { s with currentPriorityLevel := p, currentEventStartTime := now }
  let r := eventHandler s1
  let s2 := { r.s with currentPriorityLevel := s.currentPriorityLevel,
                       currentEventStartTime := s.currentEventStartTime }
  let r2 := flushImmediateWork s2
  ⟨r2.s, r.tr ++ r2.tr, r.err || r2.err⟩

/-- Function `unstable_cancelCallback(callbackNode)`: if the node's link fields are
null (`next === null`, i.e. it is not currently enqueued) do nothing;
otherwise unlink it from the list (adjusting `firstCallbackNode` if needed)
and clear its link fields.  The handle is identified by the node's object
identity `i`. -/
def removeFirstById (i : Nat) : List CallbackNode → List CallbackNode
  | [] => []
  | n :: rest => if n.id = i then rest else n :: removeFirstById i rest

/-- State-level cancellation: a node is enqueued (links non-null) exactly when
its identity occurs in the queue list. -/
def unstable_cancelCallback (i : Nat) (s : SchedState) : SchedState :=
  if s.queue.any (fun n => n.id = i) then
    { s with queue := removeFirstById i s.queue }
  else s

/-- Function `unstable_shouldYield`: `!currentDidTimeout && ((firstCallbackNode !==
null && firstCallbackNode.expirationTime < currentExpirationTime) ||
shouldYieldToHost())`; the host answer is the oracle value `hostYield`. -/
def unstable_shouldYield (hostYield : Bool) (s : SchedState) : Bool :=
  !s.currentDidTimeout &&
    ((match s.queue with
      | [] => false
      | n :: _ => decide (n.expirationTime < s.currentExpirationTime)) || hostYield)

theorem flushFirstCallback_master {s : SchedState} {n : CallbackNode}
    {rest : List CallbackNode} (hq : s.queue = n :: rest) :
    ∃ q' hcs extra,
      flushFirstCallback s =
        ⟨{ s with queue := q', isHostCallbackScheduled := hcs },
          Event.exec n.id :: extra, decide (n.callback = Cb.exn)⟩ ∧
      (q' = rest ∨ ∃ c, n.callback = Cb.cont c ∧
        q' = continuationInsert ⟨n.id, c, n.priorityLevel, n.expirationTime⟩ rest) ∧
      Event.yieldCheck ∉ extra ∧ (∀ j, Event.exec j ∉ extra) := by
  obtain ⟨q, dt, sp, pl, es, ce, ec, hcs0⟩ := s
  simp only at hq
  subst hq
  cases hcb : n.callback with
  | exn =>
    refine ⟨rest, hcs0, [], ?_, Or.inl rfl, by simp, by simp⟩
    simp [flushFirstCallback, hcb]
  | ret =>
    refine ⟨rest, hcs0, [], ?_, Or.inl rfl, by simp, by simp⟩
    simp [flushFirstCallback, hcb]
  | cont c =>
    cases rest with
    | nil =>
      refine ⟨[⟨n.id, c, n.priorityLevel, n.expirationTime⟩], hcs0, [], ?_,
        Or.inr ⟨c, rfl, rfl⟩, by simp, by simp⟩
      simp [flushFirstCallback, hcb, continuationInsert]
    | cons m rs =>
      by_cases hge : m.expirationTime ≥ n.expirationTime
      · cases ec with
        | true =>
          refine ⟨continuationInsert ⟨n.id, c, n.priorityLevel, n.expirationTime⟩ (m :: rs),
            hcs0, [], ?_, Or.inr ⟨c, rfl, rfl⟩, by simp, by simp⟩
          simp [flushFirstCallback, hcb, hge, ensureHostCallbackIsScheduled]
        | false =>
          cases hcs0 with
          | true =>
            refine ⟨continuationInsert ⟨n.id, c, n.priorityLevel, n.expirationTime⟩ (m :: rs),
              true, [Event.hostCancel, Event.hostRequest n.expirationTime], ?_,
              Or.inr ⟨c, rfl, rfl⟩, by simp, by simp⟩
            simp [flushFirstCallback, hcb, hge, ensureHostCallbackIsScheduled,
              continuationInsert]
          | false =>
            refine ⟨continuationInsert ⟨n.id, c, n.priorityLevel, n.expirationTime⟩ (m :: rs),
              true, [Event.hostRequest n.expirationTime], ?_,
              Or.inr ⟨c, rfl, rfl⟩, by simp, by simp⟩
            simp [flushFirstCallback, hcb, hge, ensureHostCallbackIsScheduled,
              continuationInsert]
      · refine ⟨continuationInsert ⟨n.id, c, n.priorityLevel, n.expirationTime⟩ (m :: rs),
          hcs0, [], ?_, Or.inr ⟨c, rfl, rfl⟩, by simp, by simp⟩
        simp [flushFirstCallback, hcb, hge]

/-- Ambient-state fields that every scheduler-internal flush leaves unchanged. -/
def SameAmbient (a b : SchedState) : Prop :=
  a.currentPriorityLevel = b.currentPriorityLevel ∧
  a.currentExpirationTime = b.currentExpirationTime ∧
  a.currentEventStartTime = b.currentEventStartTime ∧
  a.currentDidTimeout = b.currentDidTimeout ∧
  a.isSchedulerPaused = b.isSchedulerPaused ∧
  a.isExecutingCallback = b.isExecutingCallback

theorem SameAmbient.refl (a : SchedState) : SameAmbient a a :=
  ⟨rfl, rfl, rfl, rfl, rfl, rfl⟩

theorem SameAmbient.trans {a b c : SchedState} (h1 : SameAmbient a b)
    (h2 : SameAmbient b c) : SameAmbient a c := by
  obtain ⟨x1, x2, x3, x4, x5, x6⟩ := h1
  obtain ⟨y1, y2, y3, y4, y5, y6⟩ := h2
  exact ⟨x1.trans y1, x2.trans y2, x3.trans y3, x4.trans y4, x5.trans y5, x6.trans y6⟩

theorem flushFirstCallback_ambient (s : SchedState) :
    SameAmbient (flushFirstCallback s).s s := by
  cases hq : s.queue with
  | nil =>
    obtain ⟨q, dt, sp, pl, es, ce, ec, hcs0⟩ := s
    simp only at hq
    subst hq
    simp [flushFirstCallback, SameAmbient.refl]
  | cons n rest =>
    obtain ⟨q', hcs, extra, heq, -, -, -⟩ := flushFirstCallback_master hq
    rw [heq]
    exact ⟨rfl, rfl, rfl, rfl, rfl, rfl⟩

theorem flushFirstCallback_queue_cases {s : SchedState} {n : CallbackNode}
    {rest : List CallbackNode} (hq : s.queue = n :: rest) :
    (flushFirstCallback s).s.queue = rest ∨
    ∃ c, n.callback = Cb.cont c ∧
      (flushFirstCallback s).s.queue =
        continuationInsert ⟨n.id, c, n.priorityLevel, n.expirationTime⟩ rest := by
  obtain ⟨q', hcs, extra, heq, hcase, -, -⟩ := flushFirstCallback_master hq
  rw [heq]
  exact hcase

theorem flushFirstCallback_err_iff {s : SchedState} {n : CallbackNode}
    {rest : List CallbackNode} (hq : s.queue = n :: rest) :
    (flushFirstCallback s).err = true ↔ n.callback = Cb.exn := by
  obtain ⟨q', hcs, extra, heq, -, -, -⟩ := flushFirstCallback_master hq
  rw [heq]
  simp

theorem flushFirstCallback_tr {s : SchedState} {n : CallbackNode}
    {rest : List CallbackNode} (hq : s.queue = n :: rest) :
    ∃ extra, (flushFirstCallback s).tr = Event.exec n.id :: extra ∧
      Event.yieldCheck ∉ extra ∧ ∀ j, Event.exec j ∉ extra := by
  obtain ⟨q', hcs, extra, heq, -, hy, hx⟩ := flushFirstCallback_master hq
  rw [heq]
  exact ⟨extra, rfl, hy, hx⟩

theorem queueWeight_cons (n : CallbackNode) (xs : List CallbackNode) :
    queueWeight (n :: xs) = nodeWeight n + queueWeight xs := by
  simp [queueWeight]

theorem queueWeight_continuationInsert (n : CallbackNode) (xs : List CallbackNode) :
    queueWeight (continuationInsert n xs) = nodeWeight n + queueWeight xs := by
  induction xs with
  | nil => simp [continuationInsert, queueWeight]
  | cons y ys ih =>
    simp only [continuationInsert]
    split
    · simp [queueWeight_cons]
    · simp [queueWeight_cons, ih]
      omega

theorem flushFirstCallback_weight {s : SchedState} {n : CallbackNode}
    {rest : List CallbackNode} (hq : s.queue = n :: rest) :
    queueWeight (flushFirstCallback s).s.queue < queueWeight s.queue := by
  rw [hq, queueWeight_cons]
  rcases flushFirstCallback_queue_cases hq with h | ⟨c, hcb, h⟩
  · rw [h]
    have : 1 ≤ nodeWeight n := Nat.le_add_left 1 _
    omega
  · rw [h, queueWeight_continuationInsert]
    have : nodeWeight (⟨n.id, c, n.priorityLevel, n.expirationTime⟩ : CallbackNode) + 1 =
        nodeWeight n := by
      simp [nodeWeight, hcb, cbSize]
    omega

theorem flushFirstCallback_mem {s : SchedState} {n : CallbackNode}
    {rest : List CallbackNode} (hq : s.queue = n :: rest) :
    ∀ m ∈ rest, m ∈ (flushFirstCallback s).s.queue := by
  intro m hm
  rcases flushFirstCallback_queue_cases hq with h | ⟨c, hcb, h⟩
  · rw [h]; exact hm
  · rw [h]; exact mem_continuationInsert.2 (Or.inr hm)

theorem flushFirstCallback_queue_sub {s : SchedState} {n : CallbackNode}
    {rest : List CallbackNode} (hq : s.queue = n :: rest) :
    ∀ m ∈ (flushFirstCallback s).s.queue,
      m ∈ rest ∨ ∃ c, n.callback = Cb.cont c ∧
        m = ⟨n.id, c, n.priorityLevel, n.expirationTime⟩ := by
  intro m hm
  rcases flushFirstCallback_queue_cases hq with h | ⟨c, hcb, h⟩
  · rw [h] at hm; exact Or.inl hm
  · rw [h] at hm
    rcases mem_continuationInsert.1 hm with rfl | hm
    · exact Or.inr ⟨c, hcb, rfl⟩
    · exact Or.inl hm

theorem flushFirstCallback_sorted {s : SchedState} {n : CallbackNode}
    {rest : List CallbackNode} (hq : s.queue = n :: rest)
    (hs : QueueSorted s.queue) : QueueSorted (flushFirstCallback s).s.queue := by
  rw [hq] at hs
  have hrest : QueueSorted rest := by
    simp only [QueueSorted, List.pairwise_cons] at hs
    exact hs.2
  rcases flushFirstCallback_queue_cases hq with h | ⟨c, hcb, h⟩
  · rw [h]; exact hrest
  · rw [h]; exact continuationInsert_sorted hrest

/-- All callbacks in a queue (including all continuations their callbacks can
produce) run without throwing. -/
def AllNoThrow (q : List CallbackNode) : Prop :=
  ∀ m ∈ q, cbNoThrow m.callback = true

/-- All Immediate-priority callbacks in a queue run without throwing. -/
def ImmNoThrow (q : List CallbackNode) : Prop :=
  ∀ m ∈ q, m.priorityLevel = ImmediatePriority → cbNoThrow m.callback = true

theorem flushFirstCallback_allNoThrow {s : SchedState} {n : CallbackNode}
    {rest : List CallbackNode} (hq : s.queue = n :: rest)
    (h : AllNoThrow s.queue) : AllNoThrow (flushFirstCallback s).s.queue := by
  intro m hm
  rcases flushFirstCallback_queue_sub hq m hm with hm' | ⟨c, hcb, rfl⟩
  · exact h m (hq ▸ List.mem_cons_of_mem n hm')
  · have := h n (hq ▸ List.mem_cons_self n rest)
    rw [hcb] at this
    simpa [cbNoThrow] using this

theorem flushFirstCallback_immNoThrow {s : SchedState} {n : CallbackNode}
    {rest : List CallbackNode} (hq : s.queue = n :: rest)
    (h : ImmNoThrow s.queue) : ImmNoThrow (flushFirstCallback s).s.queue := by
  intro m hm hp
  rcases flushFirstCallback_queue_sub hq m hm with hm' | ⟨c, hcb, rfl⟩
  · exact h m (hq ▸ List.mem_cons_of_mem n hm') hp
  · have := h n (hq ▸ List.mem_cons_self n rest) hp
    rw [hcb] at this
    simpa [cbNoThrow] using this

theorem flushFirstCallback_noerr {s : SchedState} {n : CallbackNode}
    {rest : List CallbackNode} (hq : s.queue = n :: rest)
    (h : AllNoThrow s.queue) : (flushFirstCallback s).err = false := by
  have hn := h n (hq ▸ List.mem_cons_self n rest)
  cases herr : (flushFirstCallback s).err with
  | false => rfl
  | true =>
    have hexn := (flushFirstCallback_err_iff hq).1 herr
    rw [hexn] at hn
    simp [cbNoThrow] at hn

theorem flushFirstCallback_nil {s : SchedState} (hq : s.queue = []) :
    flushFirstCallback s = ⟨s, [], true⟩ := by
  obtain ⟨q, dt, sp, pl, es, ce, ec, hcs0⟩ := s
  simp only at hq
  subst hq
  simp [flushFirstCallback]

theorem flushFirstCallback_ids {s : SchedState} {n : CallbackNode}
    {rest : List CallbackNode} (hq : s.queue = n :: rest) :
    ∀ m ∈ (flushFirstCallback s).s.queue, ∃ m0 ∈ s.queue, m.id = m0.id := by
  intro m hm
  rcases flushFirstCallback_queue_sub hq m hm with hm' | ⟨c, hcb, rfl⟩
  · exact ⟨m, hq ▸ List.mem_cons_of_mem n hm', rfl⟩
  · exact ⟨n, hq ▸ List.mem_cons_self n rest, rfl⟩

theorem flushFirstCallback_tr_exec {s : SchedState} {n : CallbackNode}
    {rest : List CallbackNode} (hq : s.queue = n :: rest) :
    ∀ j, Event.exec j ∈ (flushFirstCallback s).tr → ∃ m0 ∈ s.queue, j = m0.id := by
  intro j hj
  obtain ⟨extra, htr, hy, hx⟩ := flushFirstCallback_tr hq
  rw [htr] at hj
  rcases List.mem_cons.1 hj with h | h
  · have : j = n.id := by injection h
    exact ⟨n, hq ▸ List.mem_cons_self n rest, this⟩
  · exact absurd h (hx j)

theorem flushFirstCallback_tr_noYield (s : SchedState) :
    Event.yieldCheck ∉ (flushFirstCallback s).tr := by
  cases hq : s.queue with
  | nil => simp [flushFirstCallback_nil hq]
  | cons n rest =>
    obtain ⟨extra, htr, hy, hx⟩ := flushFirstCallback_tr hq
    rw [htr]
    intro hc
    rcases List.mem_cons.1 hc with h | h
    · exact Event.noConfusion h
    · exact hy h

theorem flushExpiredBatchGo_A (t : Int) (fuel : Nat) (s : SchedState) :
    SameAmbient (flushExpiredBatchGo t fuel s).s s ∧
    (∀ m ∈ (flushExpiredBatchGo t fuel s).s.queue, ∃ m0 ∈ s.queue, m.id = m0.id) ∧
    (∀ j, Event.exec j ∈ (flushExpiredBatchGo t fuel s).tr → ∃ m0 ∈ s.queue, j = m0.id) ∧
    Event.yieldCheck ∉ (flushExpiredBatchGo t fuel s).tr ∧
    (ImmNoThrow s.queue → ImmNoThrow (flushExpiredBatchGo t fuel s).s.queue) := by
  have base : ∀ u : SchedState,
      SameAmbient (flushFirstCallback u).s u ∧
      (∀ m ∈ (flushFirstCallback u).s.queue, ∃ m0 ∈ u.queue, m.id = m0.id) ∧
      (∀ j, Event.exec j ∈ (flushFirstCallback u).tr → ∃ m0 ∈ u.queue, j = m0.id) ∧
      Event.yieldCheck ∉ (flushFirstCallback u).tr ∧
      (ImmNoThrow u.queue → ImmNoThrow (flushFirstCallback u).s.queue) := by
    intro u
    cases hq : u.queue with
    | nil =>
      rw [flushFirstCallback_nil hq]
      refine ⟨SameAmbient.refl u, ?_, ?_, by simp, ?_⟩
      · intro m hm
        simp [hq] at hm
      · intro j hj
        simp at hj
      · intro h m hm
        simp [hq] at hm
    | cons n rest =>
      rw [← hq]
      exact ⟨flushFirstCallback_ambient u, flushFirstCallback_ids hq,
        flushFirstCallback_tr_exec hq, flushFirstCallback_tr_noYield u,
        flushFirstCallback_immNoThrow hq⟩
  induction fuel generalizing s with
  | zero =>
    rw [flushExpiredBatchGo.eq_def]
    dsimp only
    split
    · exact base s
    · split
      · exact base s
      · split
        · split
          · exact base s
          · exact base s
        · exact base s
  | succ fuel ih =>
    rw [flushExpiredBatchGo.eq_def]
    dsimp only
    split
    · exact base s
    · split
      · exact base s
      · split
        · split
          · exact base s
          · -- recursive case
            obtain ⟨ha1, hi1, he1, hy1, hn1⟩ := base s
            obtain ⟨ha2, hi2, he2, hy2, hn2⟩ := ih (flushFirstCallback s).s
            refine ⟨ha2.trans ha1, ?_, ?_, ?_, ?_⟩
            · intro m hm
              obtain ⟨m1, hm1, hid1⟩ := hi2 m hm
              obtain ⟨m0, hm0, hid0⟩ := hi1 m1 hm1
              exact ⟨m0, hm0, hid1.trans hid0⟩
            · intro j hj
              rcases List.mem_append.1 hj with hj | hj
              · exact he1 j hj
              · obtain ⟨m1, hm1, hid1⟩ := he2 j hj
                obtain ⟨m0, hm0, hid0⟩ := hi1 m1 hm1
                exact ⟨m0, hm0, hid1.trans hid0⟩
            · intro hc
              rcases List.mem_append.1 hc with hc | hc
              · exact hy1 hc
              · exact hy2 hc
            · intro h
              exact hn2 (hn1 h)
        · exact base s

theorem flushExpiredBatch_A (t : Int) (s : SchedState) :
    SameAmbient (flushExpiredBatch t s).s s ∧
    (∀ m ∈ (flushExpiredBatch t s).s.queue, ∃ m0 ∈ s.queue, m.id = m0.id) ∧
    (∀ j, Event.exec j ∈ (flushExpiredBatch t s).tr → ∃ m0 ∈ s.queue, j = m0.id) ∧
    Event.yieldCheck ∉ (flushExpiredBatch t s).tr ∧
    (ImmNoThrow s.queue → ImmNoThrow (flushExpiredBatch t s).s.queue) :=
  flushExpiredBatchGo_A t (queueWeight s.queue) s

theorem flushTimedOutLoopGo_A (clock : Nat → Int) (fuel k : Nat) (s : SchedState) :
    SameAmbient (flushTimedOutLoopGo clock fuel k s).s s ∧
    (∀ m ∈ (flushTimedOutLoopGo clock fuel k s).s.queue, ∃ m0 ∈ s.queue, m.id = m0.id) ∧
    (∀ j, Event.exec j ∈ (flushTimedOutLoopGo clock fuel k s).tr →
      ∃ m0 ∈ s.queue, j = m0.id) ∧
    Event.yieldCheck ∉ (flushTimedOutLoopGo clock fuel k s).tr ∧
    (ImmNoThrow s.queue → ImmNoThrow (flushTimedOutLoopGo clock fuel k s).s.queue) := by
  induction fuel generalizing k s with
  | zero =>
    rw [flushTimedOutLoopGo.eq_def]
    dsimp only
    split
    · exact ⟨SameAmbient.refl s, fun m hm => ⟨m, hm, rfl⟩, by simp, by simp, fun h => h⟩
    · split
      · exact ⟨SameAmbient.refl s, fun m hm => ⟨m, hm, rfl⟩, by simp, by simp, fun h => h⟩
      · split
        · split
          · exact flushExpiredBatch_A _ s
          · exact flushExpiredBatch_A _ s
        · exact ⟨SameAmbient.refl s, fun m hm => ⟨m, hm, rfl⟩, by simp, by simp, fun h => h⟩
  | succ fuel ih =>
    rw [flushTimedOutLoopGo.eq_def]
    dsimp only
    split
    · exact ⟨SameAmbient.refl s, fun m hm => ⟨m, hm, rfl⟩, by simp, by simp, fun h => h⟩
    · split
      · exact ⟨SameAmbient.refl s, fun m hm => ⟨m, hm, rfl⟩, by simp, by simp, fun h => h⟩
      · split
        · split
          · exact flushExpiredBatch_A _ s
          · obtain ⟨ha1, hi1, he1, hy1, hn1⟩ := flushExpiredBatch_A _ s
            obtain ⟨ha2, hi2, he2, hy2, hn2⟩ := ih (k + 1) (flushExpiredBatch _ s).s
            refine ⟨ha2.trans ha1, ?_, ?_, ?_, ?_⟩
            · intro m hm
              obtain ⟨m1, hm1, hid1⟩ := hi2 m hm
              obtain ⟨m0, hm0, hid0⟩ := hi1 m1 hm1
              exact ⟨m0, hm0, hid1.trans hid0⟩
            · intro j hj
              rcases List.mem_append.1 hj with hj | hj
              · exact he1 j hj
              · obtain ⟨m1, hm1, hid1⟩ := he2 j hj
                obtain ⟨m0, hm0, hid0⟩ := hi1 m1 hm1
                exact ⟨m0, hm0, hid1.trans hid0⟩
            · intro hc
              rcases List.mem_append.1 hc with hc | hc
              · exact hy1 hc
              · exact hy2 hc
            · intro h
              exact hn2 (hn1 h)
        · exact ⟨SameAmbient.refl s, fun m hm => ⟨m, hm, rfl⟩, by simp, by simp, fun h => h⟩

theorem flushUntilYieldLoopGo_A (yields : Nat → Bool) (fuel j0 : Nat) (s : SchedState) :
    SameAmbient (flushUntilYieldLoopGo yields fuel j0 s).s s ∧
    (∀ m ∈ (flushUntilYieldLoopGo yields fuel j0 s).s.queue, ∃ m0 ∈ s.queue, m.id = m0.id) ∧
    (∀ j, Event.exec j ∈ (flushUntilYieldLoopGo yields fuel j0 s).tr →
      ∃ m0 ∈ s.queue, j = m0.id) ∧
    (ImmNoThrow s.queue → ImmNoThrow (flushUntilYieldLoopGo yields fuel j0 s).s.queue) := by
  have base : ∀ u : SchedState,
      SameAmbient (flushFirstCallback u).s u ∧
      (∀ m ∈ (flushFirstCallback u).s.queue, ∃ m0 ∈ u.queue, m.id = m0.id) ∧
      (∀ j, Event.exec j ∈ (flushFirstCallback u).tr → ∃ m0 ∈ u.queue, j = m0.id) ∧
      (ImmNoThrow u.queue → ImmNoThrow (flushFirstCallback u).s.queue) := by
    intro u
    cases hq : u.queue with
    | nil =>
      rw [flushFirstCallback_nil hq]
      refine ⟨SameAmbient.refl u, ?_, ?_, ?_⟩
      · intro m hm
        simp [hq] at hm
      · intro j hj
        simp at hj
      · intro h m hm
        simp [hq] at hm
    | cons n rest =>
      rw [← hq]
      exact ⟨flushFirstCallback_ambient u, flushFirstCallback_ids hq,
        flushFirstCallback_tr_exec hq, flushFirstCallback_immNoThrow hq⟩
  have baseY : ∀ u : SchedState, ∀ e : Bool,
      SameAmbient (⟨(flushFirstCallback u).s,
          (flushFirstCallback u).tr ++ [Event.yieldCheck], e⟩ : FlushResult).s u ∧
      (∀ m ∈ (⟨(flushFirstCallback u).s,
          (flushFirstCallback u).tr ++ [Event.yieldCheck], e⟩ : FlushResult).s.queue,
        ∃ m0 ∈ u.queue, m.id = m0.id) ∧
      (∀ j, Event.exec j ∈ (⟨(flushFirstCallback u).s,
          (flushFirstCallback u).tr ++ [Event.yieldCheck], e⟩ : FlushResult).tr →
        ∃ m0 ∈ u.queue, j = m0.id) ∧
      (ImmNoThrow u.queue → ImmNoThrow (⟨(flushFirstCallback u).s,
          (flushFirstCallback u).tr ++ [Event.yieldCheck], e⟩ : FlushResult).s.queue) := by
    intro u e
    obtain ⟨ha, hi, he, hn⟩ := base u
    refine ⟨ha, hi, ?_, hn⟩
    intro j hj
    rcases List.mem_append.1 hj with hj | hj
    · exact he j hj
    · simp at hj
  induction fuel generalizing j0 s with
  | zero =>
    rw [flushUntilYieldLoopGo.eq_def]
    dsimp only
    split
    · exact ⟨SameAmbient.refl s, fun m hm => ⟨m, hm, rfl⟩, by simp, fun h => h⟩
    · split
      · exact base s
      · split
        · exact base s
        · split
          · exact baseY s false
          · exact baseY s false
  | succ fuel ih =>
    rw [flushUntilYieldLoopGo.eq_def]
    dsimp only
    split
    · exact ⟨SameAmbient.refl s, fun m hm => ⟨m, hm, rfl⟩, by simp, fun h => h⟩
    · split
      · exact base s
      · split
        · exact base s
        · split
          · exact baseY s false
          · obtain ⟨ha1, hi1, he1, hn1⟩ := base s
            obtain ⟨ha2, hi2, he2, hn2⟩ := ih (j0 + 1) (flushFirstCallback s).s
            refine ⟨ha2.trans ha1, ?_, ?_, ?_⟩
            · intro m hm
              obtain ⟨m1, hm1, hid1⟩ := hi2 m hm
              obtain ⟨m0, hm0, hid0⟩ := hi1 m1 hm1
              exact ⟨m0, hm0, hid1.trans hid0⟩
            · intro j hj
              rcases List.mem_append.1 hj with hj | hj
              · rcases List.mem_append.1 hj with hj | hj
                · exact he1 j hj
                · simp at hj
              · obtain ⟨m1, hm1, hid1⟩ := he2 j hj
                obtain ⟨m0, hm0, hid0⟩ := hi1 m1 hm1
                exact ⟨m0, hm0, hid1.trans hid0⟩
            · intro h
              exact hn2 (hn1 h)

theorem flushImmediateLoopGo_A (fuel : Nat) (s : SchedState) :
    SameAmbient (flushImmediateLoopGo fuel s).s s ∧
    (∀ m ∈ (flushImmediateLoopGo fuel s).s.queue, ∃ m0 ∈ s.queue, m.id = m0.id) ∧
    (∀ j, Event.exec j ∈ (flushImmediateLoopGo fuel s).tr → ∃ m0 ∈ s.queue, j = m0.id) ∧
    Event.yieldCheck ∉ (flushImmediateLoopGo fuel s).tr ∧
    (ImmNoThrow s.queue → ImmNoThrow (flushImmediateLoopGo fuel s).s.queue) := by
  have base : ∀ u : SchedState,
      SameAmbient (flushFirstCallback u).s u ∧
      (∀ m ∈ (flushFirstCallback u).s.queue, ∃ m0 ∈ u.queue, m.id = m0.id) ∧
      (∀ j, Event.exec j ∈ (flushFirstCallback u).tr → ∃ m0 ∈ u.queue, j = m0.id) ∧
      Event.yieldCheck ∉ (flushFirstCallback u).tr ∧
      (ImmNoThrow u.queue → ImmNoThrow (flushFirstCallback u).s.queue) := by
    intro u
    cases hq : u.queue with
    | nil =>
      rw [flushFirstCallback_nil hq]
      refine ⟨SameAmbient.refl u, ?_, ?_, by simp, ?_⟩
      · intro m hm
        simp [hq] at hm
      · intro j hj
        simp at hj
      · intro h m hm
        simp [hq] at hm
    | cons n rest =>
      rw [← hq]
      exact ⟨flushFirstCallback_ambient u, flushFirstCallback_ids hq,
        flushFirstCallback_tr_exec hq, flushFirstCallback_tr_noYield u,
        flushFirstCallback_immNoThrow hq⟩
  induction fuel generalizing s with
  | zero =>
    rw [flushImmediateLoopGo.eq_def]
    dsimp only
    split
    · exact base s
    · split
      · exact base s
      · split
        · exact base s
        · exact base s
  | succ fuel ih =>
    rw [flushImmediateLoopGo.eq_def]
    dsimp only
    split
    · exact base s
    · split
      · exact base s
      · split
        · obtain ⟨ha1, hi1, he1, hy1, hn1⟩ := base s
          obtain ⟨ha2, hi2, he2, hy2, hn2⟩ := ih (flushFirstCallback s).s
          refine ⟨ha2.trans ha1, ?_, ?_, ?_, ?_⟩
          · intro m hm
            obtain ⟨m1, hm1, hid1⟩ := hi2 m hm
            obtain ⟨m0, hm0, hid0⟩ := hi1 m1 hm1
            exact ⟨m0, hm0, hid1.trans hid0⟩
          · intro j hj
            rcases List.mem_append.1 hj with hj | hj
            · exact he1 j hj
            · obtain ⟨m1, hm1, hid1⟩ := he2 j hj
              obtain ⟨m0, hm0, hid0⟩ := hi1 m1 hm1
              exact ⟨m0, hm0, hid1.trans hid0⟩
          · intro hc
            rcases List.mem_append.1 hc with hc | hc
            · exact hy1 hc
            · exact hy2 hc
          · intro h
            exact hn2 (hn1 h)
        · exact base s

theorem queueWeight_eq_zero {q : List CallbackNode} (h : queueWeight q = 0) : q = [] := by
  cases q with
  | nil => rfl
  | cons n rest =>
    rw [queueWeight_cons] at h
    simp [nodeWeight] at h

theorem sorted_head_lt {t : Int} {m : CallbackNode} {ms : List CallbackNode}
    (hs : QueueSorted (m :: ms)) (ht : t < m.expirationTime) :
    ∀ x ∈ m :: ms, t < x.expirationTime := by
  simp only [QueueSorted, List.pairwise_cons] at hs
  intro x hx
  rcases List.mem_cons.1 hx with rfl | hx
  · exact ht
  · have := hs.1 x hx
    omega

theorem flushFirstCallback_noerr_head {s : SchedState} {n : CallbackNode}
    {rest : List CallbackNode} (hq : s.queue = n :: rest)
    (hn : cbNoThrow n.callback = true) : (flushFirstCallback s).err = false := by
  cases herr : (flushFirstCallback s).err with
  | false => rfl
  | true =>
    have hexn := (flushFirstCallback_err_iff hq).1 herr
    rw [hexn] at hn
    simp [cbNoThrow] at hn

theorem ensureHost_state (s : SchedState) :
    (ensureHostCallbackIsScheduled s).1.queue = s.queue ∧
    (ensureHostCallbackIsScheduled s).1.currentPriorityLevel = s.currentPriorityLevel ∧
    (ensureHostCallbackIsScheduled s).1.currentExpirationTime = s.currentExpirationTime ∧
    (ensureHostCallbackIsScheduled s).1.currentEventStartTime = s.currentEventStartTime ∧
    (ensureHostCallbackIsScheduled s).1.currentDidTimeout = s.currentDidTimeout ∧
    (ensureHostCallbackIsScheduled s).1.isSchedulerPaused = s.isSchedulerPaused ∧
    (ensureHostCallbackIsScheduled s).1.isExecutingCallback = s.isExecutingCallback ∧
    Event.yieldCheck ∉ (ensureHostCallbackIsScheduled s).2 ∧
    (∀ j, Event.exec j ∉ (ensureHostCallbackIsScheduled s).2) := by
  unfold ensureHostCallbackIsScheduled
  split
  · simp
  · split
    · simp
    · split <;> simp

theorem flushExpiredBatchGo_B (t : Int) (fuel : Nat) (s : SchedState)
    (hfuel : queueWeight s.queue ≤ fuel) (hne : s.queue ≠ [])
    (hsorted : QueueSorted s.queue) (hnt : AllNoThrow s.queue) :
    (flushExpiredBatchGo t fuel s).err = false ∧
    QueueSorted (flushExpiredBatchGo t fuel s).s.queue ∧
    AllNoThrow (flushExpiredBatchGo t fuel s).s.queue ∧
    (∀ m ∈ s.queue, Event.exec m.id ∈ (flushExpiredBatchGo t fuel s).tr ∨
      m ∈ (flushExpiredBatchGo t fuel s).s.queue) ∧
    (∀ x ∈ (flushExpiredBatchGo t fuel s).s.queue, t < x.expirationTime) ∧
    queueWeight (flushExpiredBatchGo t fuel s).s.queue < queueWeight s.queue := by
  induction fuel generalizing s with
  | zero =>
    exfalso
    exact hne (queueWeight_eq_zero (Nat.le_zero.1 hfuel))
  | succ fuel ih =>
    obtain ⟨n, rest, hq⟩ : ∃ n rest, s.queue = n :: rest := by
      cases hcase : s.queue with
      | nil => exact absurd hcase hne
      | cons a b => exact ⟨a, b, rfl⟩
    have herr : (flushFirstCallback s).err = false :=
      flushFirstCallback_noerr hq hnt
    have hsorted1 : QueueSorted (flushFirstCallback s).s.queue :=
      flushFirstCallback_sorted hq hsorted
    have hnt1 : AllNoThrow (flushFirstCallback s).s.queue :=
      flushFirstCallback_allNoThrow hq hnt
    have hw1 : queueWeight (flushFirstCallback s).s.queue < queueWeight s.queue :=
      flushFirstCallback_weight hq
    obtain ⟨extra, htr, hyx, hxx⟩ := flushFirstCallback_tr hq
    have hmemstep : ∀ m ∈ s.queue,
        Event.exec m.id ∈ (flushFirstCallback s).tr ∨
        m ∈ (flushFirstCallback s).s.queue := by
      intro m hm
      rw [hq] at hm
      rcases List.mem_cons.1 hm with rfl | hm
      · left
        rw [htr]
        exact List.mem_cons_self _ _
      · right
        exact flushFirstCallback_mem hq m hm
    rw [flushExpiredBatchGo.eq_def]
    dsimp only
    split
    · rename_i h
      rw [herr] at h
      exact absurd h (by simp)
    · split
      · rename_i heq
        refine ⟨herr, hsorted1, hnt1, hmemstep, ?_, hw1⟩
        rw [heq]
        simp
      · rename_i m ms heq
        split
        · rename_i hle
          split
          · rename_i hdbg
            rw [enableSchedulerDebugging] at hdbg
            simp at hdbg
          · obtain ⟨herr2, hsorted2, hnt2, hmem2, hlast2, hw2⟩ :=
              ih (flushFirstCallback s).s
                (by omega) (by rw [heq]; simp) hsorted1 hnt1
            refine ⟨herr2, hsorted2, hnt2, ?_, hlast2, by dsimp only; omega⟩
            intro m0 hm0
            rcases hmemstep m0 hm0 with hex | hin
            · left
              exact List.mem_append_left _ hex
            · rcases hmem2 m0 hin with hex | hin2
              · left
                exact List.mem_append_right _ hex
              · right
                exact hin2
        · rename_i hgt
          refine ⟨herr, hsorted1, hnt1, hmemstep, ?_, hw1⟩
          rw [heq]
          rw [heq] at hsorted1
          exact sorted_head_lt hsorted1 (by omega)

theorem flushExpiredBatch_B (t : Int) (s : SchedState) (hne : s.queue ≠ [])
    (hsorted : QueueSorted s.queue) (hnt : AllNoThrow s.queue) :
    (flushExpiredBatch t s).err = false ∧
    QueueSorted (flushExpiredBatch t s).s.queue ∧
    AllNoThrow (flushExpiredBatch t s).s.queue ∧
    (∀ m ∈ s.queue, Event.exec m.id ∈ (flushExpiredBatch t s).tr ∨
      m ∈ (flushExpiredBatch t s).s.queue) ∧
    (∀ x ∈ (flushExpiredBatch t s).s.queue, t < x.expirationTime) ∧
    queueWeight (flushExpiredBatch t s).s.queue < queueWeight s.queue :=
  flushExpiredBatchGo_B t (queueWeight s.queue) s le_rfl hne hsorted hnt

theorem flushTimedOutLoopGo_B (clock : Nat → Int) (fuel k : Nat) (s : SchedState)
    (hfuel : queueWeight s.queue ≤ fuel)
    (hsorted : QueueSorted s.queue) (hnt : AllNoThrow s.queue) :
    (flushTimedOutLoopGo clock fuel k s).err = false ∧
    QueueSorted (flushTimedOutLoopGo clock fuel k s).s.queue ∧
    AllNoThrow (flushTimedOutLoopGo clock fuel k s).s.queue ∧
    (∀ m ∈ s.queue, Event.exec m.id ∈ (flushTimedOutLoopGo clock fuel k s).tr ∨
      m ∈ (flushTimedOutLoopGo clock fuel k s).s.queue) ∧
    (∃ k0, k ≤ k0 ∧ ∀ x ∈ (flushTimedOutLoopGo clock fuel k s).s.queue,
      clock k0 < x.expirationTime) := by
  induction fuel generalizing k s with
  | zero =>
    have hq : s.queue = [] := queueWeight_eq_zero (Nat.le_zero.1 hfuel)
    rw [flushTimedOutLoopGo.eq_def]
    dsimp only
    split
    · refine ⟨rfl, hsorted, hnt, ?_, k, le_rfl, ?_⟩
      · intro m hm
        exact Or.inr hm
      · intro x hx
        rw [hq] at hx
        simp at hx
    · rename_i n rest heq
      rw [hq] at heq
      exact absurd heq (by simp)
  | succ fuel ih =>
    rw [flushTimedOutLoopGo.eq_def]
    dsimp only
    split
    · rename_i heq
      refine ⟨rfl, hsorted, hnt, fun m hm => Or.inr hm, k, le_rfl, ?_⟩
      intro x hx
      rw [heq] at hx
      simp at hx
    · rename_i n rest heq
      split
      · rename_i hdbg
        rw [enableSchedulerDebugging] at hdbg
        simp at hdbg
      · split
        · rename_i hle
          obtain ⟨berr, bsorted, bnt, bmem, blast, bw⟩ :=
            flushExpiredBatch_B (clock k) s (by rw [heq]; simp) hsorted hnt
          split
          · rename_i h
            rw [berr] at h
            exact absurd h (by simp)
          · obtain ⟨rerr, rsorted, rnt, rmem, k0, hk0, rlast⟩ :=
              ih (k + 1) (flushExpiredBatch (clock k) s).s
                (by rw [heq] at hfuel bw; omega) bsorted bnt
            refine ⟨rerr, rsorted, rnt, ?_, k0, by omega, rlast⟩
            intro m hm
            rcases bmem m hm with hex | hin
            · left
              exact List.mem_append_left _ hex
            · rcases rmem m hin with hex | hin2
              · left
                exact List.mem_append_right _ hex
              · right
                exact hin2
        · rename_i hgt
          refine ⟨rfl, hsorted, hnt, fun m hm => Or.inr hm, k, le_rfl, ?_⟩
          rw [heq]
          rw [heq] at hsorted
          exact sorted_head_lt hsorted (by omega)

theorem flushTimedOutLoop_B (clock : Nat → Int) (k : Nat) (s : SchedState)
    (hsorted : QueueSorted s.queue) (hnt : AllNoThrow s.queue) :
    (flushTimedOutLoop clock k s).err = false ∧
    QueueSorted (flushTimedOutLoop clock k s).s.queue ∧
    AllNoThrow (flushTimedOutLoop clock k s).s.queue ∧
    (∀ m ∈ s.queue, Event.exec m.id ∈ (flushTimedOutLoop clock k s).tr ∨
      m ∈ (flushTimedOutLoop clock k s).s.queue) ∧
    (∃ k0, k ≤ k0 ∧ ∀ x ∈ (flushTimedOutLoop clock k s).s.queue,
      clock k0 < x.expirationTime) :=
  flushTimedOutLoopGo_B clock (queueWeight s.queue) k s le_rfl hsorted hnt

theorem flushImmediateLoopGo_B (fuel : Nat) (s : SchedState) (n : CallbackNode)
    (rest : List CallbackNode)
    (hfuel : queueWeight s.queue ≤ fuel) (hq : s.queue = n :: rest)
    (himm : ImmNoThrow s.queue) (hp : n.priorityLevel = ImmediatePriority) :
    (flushImmediateLoopGo fuel s).s.queue = [] ∨
    ∃ m ms, (flushImmediateLoopGo fuel s).s.queue = m :: ms ∧
      m.priorityLevel ≠ ImmediatePriority := by
  induction fuel generalizing s n rest with
  | zero =>
    exfalso
    have := queueWeight_eq_zero (Nat.le_zero.1 hfuel)
    rw [hq] at this
    exact List.noConfusion this
  | succ fuel ih =>
    have hn : cbNoThrow n.callback = true :=
      himm n (hq ▸ List.mem_cons_self n rest) hp
    have herr : (flushFirstCallback s).err = false :=
      flushFirstCallback_noerr_head hq hn
    have himm1 : ImmNoThrow (flushFirstCallback s).s.queue :=
      flushFirstCallback_immNoThrow hq himm
    have hw1 : queueWeight (flushFirstCallback s).s.queue < queueWeight s.queue :=
      flushFirstCallback_weight hq
    rw [flushImmediateLoopGo.eq_def]
    dsimp only
    split
    · rename_i h
      rw [herr] at h
      exact absurd h (by simp)
    · split
      · rename_i heq
        left
        rw [heq]
      · rename_i m ms heq
        split
        · rename_i hpm
          exact ih (flushFirstCallback s).s m ms (by omega) heq himm1 hpm
        · rename_i hpm
          right
          exact ⟨m, ms, heq, hpm⟩

theorem flushImmediateWork_drain (s : SchedState)
    (hces : s.currentEventStartTime = -1) (himm : ImmNoThrow s.queue) :
    (flushImmediateWork s).s.queue = [] ∨
    ∃ m ms, (flushImmediateWork s).s.queue = m :: ms ∧
      m.priorityLevel ≠ ImmediatePriority := by
  unfold flushImmediateWork
  split
  · rename_i heq
    left
    exact heq
  · rename_i n rest heq
    split
    · rename_i hcond
      dsimp only
      have hdrain := flushImmediateLoopGo_B (queueWeight s.queue)
        { s with isExecutingCallback := true } n rest le_rfl heq himm hcond.2
      split
      · rename_i hq1
        left
        simpa using hq1
      · rename_i head tail hq1
        rcases hdrain with hnil | ⟨m2, ms2, hq2, hp2⟩
        · rw [hnil] at hq1
          exact absurd hq1 (by simp)
        · right
          rw [hq1] at hq2
          injection hq2 with h1 h2
          refine ⟨head, tail, ?_, h1 ▸ hp2⟩
          rw [(ensureHost_state _).1]
          simp [hq1]
    · rename_i hcond
      right
      refine ⟨n, rest, heq, ?_⟩
      intro hp
      exact hcond ⟨hces, hp⟩

theorem flushImmediateWork_nil {s : SchedState} (hq : s.queue = []) :
    flushImmediateWork s = ⟨s, [], false⟩ := by
  unfold flushImmediateWork
  split
  · rfl
  · rename_i n rest heq
    rw [hq] at heq
    exact absurd heq (by simp)

theorem flushImmediateWork_A (s : SchedState) :
    (flushImmediateWork s).s.currentPriorityLevel = s.currentPriorityLevel ∧
    (flushImmediateWork s).s.currentEventStartTime = s.currentEventStartTime ∧
    (∀ m ∈ (flushImmediateWork s).s.queue, ∃ m0 ∈ s.queue, m.id = m0.id) ∧
    (∀ j, Event.exec j ∈ (flushImmediateWork s).tr → ∃ m0 ∈ s.queue, j = m0.id) ∧
    Event.yieldCheck ∉ (flushImmediateWork s).tr := by
  unfold flushImmediateWork
  split
  · exact ⟨rfl, rfl, fun m hm => ⟨m, hm, rfl⟩, by simp, by simp⟩
  · rename_i n rest heq
    split
    · rename_i hcond
      dsimp only
      obtain ⟨ha, hi, he, hy, -⟩ := flushImmediateLoopGo_A (queueWeight s.queue)
        { s with isExecutingCallback := true }
      obtain ⟨hpl, hexp, hces, hdt, hsp, hexec⟩ := ha
      split
      · rename_i hq1
        refine ⟨?_, ?_, ?_, ?_, ?_⟩
        · simpa using hpl
        · simpa using hces
        · intro m hm
          dsimp only at hm
          obtain ⟨m0, hm0, hid⟩ := hi m hm
          exact ⟨m0, hm0, hid⟩
        · intro j hj
          dsimp only at hj
          obtain ⟨m0, hm0, hid⟩ := he j hj
          exact ⟨m0, hm0, hid⟩
        · intro hc
          dsimp only at hc
          exact hy hc
      · rename_i head tail hq1
        have E := ensureHost_state
          { (flushImmediateLoopGo (queueWeight s.queue)
              { s with isExecutingCallback := true }).s with
            isExecutingCallback := false }
        refine ⟨?_, ?_, ?_, ?_, ?_⟩
        · dsimp only
          rw [E.2.1]
          simpa using hpl
        · dsimp only
          rw [E.2.2.2.1]
          simpa using hces
        · intro m hm
          dsimp only at hm
          rw [E.1] at hm
          dsimp only at hm
          obtain ⟨m0, hm0, hid⟩ := hi m hm
          exact ⟨m0, hm0, hid⟩
        · intro j hj
          dsimp only at hj
          rcases List.mem_append.1 hj with hj | hj
          · obtain ⟨m0, hm0, hid⟩ := he j hj
            exact ⟨m0, hm0, hid⟩
          · exact absurd hj (E.2.2.2.2.2.2.2.2 j)
        · intro hc
          dsimp only at hc
          rcases List.mem_append.1 hc with hc | hc
          · exact hy hc
          · exact E.2.2.2.2.2.2.2.1 hc
    · exact ⟨rfl, rfl, fun m hm => ⟨m, hm, rfl⟩, by simp, by simp⟩

theorem flushTimedOutLoop_A (clock : Nat → Int) (k : Nat) (s : SchedState) :
    SameAmbient (flushTimedOutLoop clock k s).s s ∧
    (∀ m ∈ (flushTimedOutLoop clock k s).s.queue, ∃ m0 ∈ s.queue, m.id = m0.id) ∧
    (∀ j, Event.exec j ∈ (flushTimedOutLoop clock k s).tr → ∃ m0 ∈ s.queue, j = m0.id) ∧
    Event.yieldCheck ∉ (flushTimedOutLoop clock k s).tr ∧
    (ImmNoThrow s.queue → ImmNoThrow (flushTimedOutLoop clock k s).s.queue) :=
  flushTimedOutLoopGo_A clock (queueWeight s.queue) k s

theorem flushUntilYieldLoop_A (yields : Nat → Bool) (j0 : Nat) (s : SchedState) :
    SameAmbient (flushUntilYieldLoop yields j0 s).s s ∧
    (∀ m ∈ (flushUntilYieldLoop yields j0 s).s.queue, ∃ m0 ∈ s.queue, m.id = m0.id) ∧
    (∀ j, Event.exec j ∈ (flushUntilYieldLoop yields j0 s).tr → ∃ m0 ∈ s.queue, j = m0.id) ∧
    (ImmNoThrow s.queue → ImmNoThrow (flushUntilYieldLoop yields j0 s).s.queue) :=
  flushUntilYieldLoopGo_A yields (queueWeight s.queue) j0 s

theorem ensure_then_drain (u : SchedState)
    (hces : u.currentEventStartTime = -1) (himm : ImmNoThrow u.queue) :
    (flushImmediateWork (ensureHostCallbackIsScheduled u).1).s.queue = [] ∨
    ∃ m ms, (flushImmediateWork (ensureHostCallbackIsScheduled u).1).s.queue = m :: ms ∧
      m.priorityLevel ≠ ImmediatePriority := by
  have E := ensureHost_state u
  apply flushImmediateWork_drain
  · rw [E.2.2.2.1]
    exact hces
  · rw [E.1]
    exact himm

theorem flushWork_eq_true (clock : Nat → Int) (yields : Nat → Bool) (s : SchedState) :
    flushWork clock yields true s =
      flushWorkFinally s.currentDidTimeout
        (flushTimedOutLoop clock 0
          { s with isExecutingCallback := true, currentDidTimeout := true }) := by
  unfold flushWork
  rw [if_neg (by simp [enableSchedulerDebugging])]
  dsimp only
  rw [if_pos rfl]

theorem flushWork_eq_false (clock : Nat → Int) (yields : Nat → Bool) (s : SchedState) :
    flushWork clock yields false s =
      flushWorkFinally s.currentDidTimeout
        (match ({ s with isExecutingCallback := true,
                         currentDidTimeout := false } : SchedState).queue with
         | [] => ⟨{ s with isExecutingCallback := true, currentDidTimeout := false },
                  [], false⟩
         | _ :: _ => flushUntilYieldLoop yields 0
             { s with isExecutingCallback := true, currentDidTimeout := false }) := by
  unfold flushWork
  rw [if_neg (by simp [enableSchedulerDebugging])]
  dsimp only
  rw [if_neg (by simp)]

theorem flushWork_eq_false_nil (clock : Nat → Int) (yields : Nat → Bool)
    (s : SchedState) (hq : s.queue = []) :
    flushWork clock yields false s =
      flushWorkFinally s.currentDidTimeout
        ⟨{ s with isExecutingCallback := true, currentDidTimeout := false },
         [], false⟩ := by
  rw [flushWork_eq_false]
  dsimp only
  rw [hq]

theorem flushWork_eq_false_cons (clock : Nat → Int) (yields : Nat → Bool)
    (s : SchedState) (n : CallbackNode) (rest : List CallbackNode)
    (hq : s.queue = n :: rest) :
    flushWork clock yields false s =
      flushWorkFinally s.currentDidTimeout
        (flushUntilYieldLoop yields 0
          { s with isExecutingCallback := true, currentDidTimeout := false }) := by
  rw [flushWork_eq_false]
  dsimp only
  rw [hq]

theorem flushWorkFinally_drain (prev : Bool) (r : FlushResult)
    (hces : r.s.currentEventStartTime = -1) (himm : ImmNoThrow r.s.queue) :
    (flushWorkFinally prev r).s.queue = [] ∨
    ∃ m ms, (flushWorkFinally prev r).s.queue = m :: ms ∧
      m.priorityLevel ≠ ImmediatePriority := by
  unfold flushWorkFinally
  dsimp only
  split
  · rename_i hq1
    left
    dsimp only
    rw [flushImmediateWork_nil (by dsimp only; exact hq1)]
    simpa using hq1
  · rename_i head tail hq1
    dsimp only
    exact ensure_then_drain _ (by dsimp only; exact hces) himm

theorem flushWorkFinally_tr (prev : Bool) (r : FlushResult) :
    (∀ e ∈ r.tr, e ∈ (flushWorkFinally prev r).tr) ∧
    (Event.yieldCheck ∉ r.tr → Event.yieldCheck ∉ (flushWorkFinally prev r).tr) ∧
    (∀ j, Event.exec j ∈ (flushWorkFinally prev r).tr →
      Event.exec j ∈ r.tr ∨ ∃ m0 ∈ r.s.queue, j = m0.id) ∧
    (∀ m ∈ (flushWorkFinally prev r).s.queue, ∃ m0 ∈ r.s.queue, m.id = m0.id) ∧
    (flushWorkFinally prev r).s.currentPriorityLevel = r.s.currentPriorityLevel ∧
    (flushWorkFinally prev r).s.currentEventStartTime = r.s.currentEventStartTime := by
  unfold flushWorkFinally
  dsimp only
  split
  · rename_i hq1
    obtain ⟨ipl, ices, iids, iexec, iy⟩ := flushImmediateWork_A
      { r.s with isExecutingCallback := false, currentDidTimeout := prev,
                 isHostCallbackScheduled := false }
    refine ⟨?_, ?_, ?_, ?_, ?_, ?_⟩
    · intro e he
      dsimp only
      exact List.mem_append_left _ he
    · intro hny hc
      dsimp only at hc
      rcases List.mem_append.1 hc with hc | hc
      · exact hny hc
      · exact iy hc
    · intro j hj
      dsimp only at hj
      rcases List.mem_append.1 hj with hj | hj
      · exact Or.inl hj
      · right
        obtain ⟨m0, hm0, hid⟩ := iexec j hj
        exact ⟨m0, hm0, hid⟩
    · intro m hm
      dsimp only at hm
      obtain ⟨m0, hm0, hid⟩ := iids m hm
      exact ⟨m0, hm0, hid⟩
    · dsimp only
      rw [ipl]
    · dsimp only
      rw [ices]
  · rename_i head tail hq1
    have E := ensureHost_state
      { r.s with isExecutingCallback := false, currentDidTimeout := prev }
    obtain ⟨ipl, ices, iids, iexec, iy⟩ := flushImmediateWork_A
      (ensureHostCallbackIsScheduled
        { r.s with isExecutingCallback := false, currentDidTimeout := prev }).1
    refine ⟨?_, ?_, ?_, ?_, ?_, ?_⟩
    · intro e he
      dsimp only
      exact List.mem_append_left _ (List.mem_append_left _ he)
    · intro hny hc
      dsimp only at hc
      rcases List.mem_append.1 hc with hc | hc
      · rcases List.mem_append.1 hc with hc | hc
        · exact hny hc
        · exact E.2.2.2.2.2.2.2.1 hc
      · exact iy hc
    · intro j hj
      dsimp only at hj
      rcases List.mem_append.1 hj with hj | hj
      · rcases List.mem_append.1 hj with hj | hj
        · exact Or.inl hj
        · exact absurd hj (E.2.2.2.2.2.2.2.2 j)
      · right
        obtain ⟨m0, hm0, hid⟩ := iexec j hj
        rw [E.1] at hm0
        exact ⟨m0, hm0, hid⟩
    · intro m hm
      dsimp only at hm
      obtain ⟨m0, hm0, hid⟩ := iids m hm
      rw [E.1] at hm0
      exact ⟨m0, hm0, hid⟩
    · dsimp only
      rw [ipl, E.2.1]
    · dsimp only
      rw [ices, E.2.2.2.1]

/-- Claim C2: When `flushWork` is invoked with `didTimeout = true`, every queued
item whose expiration is at or before the clock value at invocation (time is
re-sampled between batches; the clock is monotone) is executed before
`flushWork` returns, and no `shouldYieldToHost` check occurs anywhere during
the call.  Hypotheses: the queue satisfies its sortedness invariant and its
callbacks do not throw (a throwing callback aborts the drain by design, §7). -/
theorem C2_flushWork_timeout_drains_expired (clock : Nat → Int) (yields : Nat → Bool)
    (s : SchedState) (hmono : ∀ i j, i ≤ j → clock i ≤ clock j)
    (hsorted : QueueSorted s.queue) (hnt : AllNoThrow s.queue) :
    (∀ n ∈ s.queue, n.expirationTime ≤ clock 0 →
      Event.exec n.id ∈ (flushWork clock yields true s).tr) ∧
    Event.yieldCheck ∉ (flushWork clock yields true s).tr := by
  rw [flushWork_eq_true]
  obtain ⟨rerr, rsorted, rnt, rmem, k0, hk0, rlast⟩ := flushTimedOutLoop_B clock 0
    { s with isExecutingCallback := true, currentDidTimeout := true } hsorted hnt
  obtain ⟨-, -, -, rny, -⟩ := flushTimedOutLoop_A clock 0
    { s with isExecutingCallback := true, currentDidTimeout := true }
  obtain ⟨fsub, fny, -, -, -, -⟩ := flushWorkFinally_tr s.currentDidTimeout
    (flushTimedOutLoop clock 0
      { s with isExecutingCallback := true, currentDidTimeout := true })
  constructor
  · intro n hn hexp
    rcases rmem n hn with hex | hin
    · exact fsub _ hex
    · exfalso
      have h1 := rlast n hin
      have h2 := hmono 0 k0 (Nat.zero_le k0)
      omega
  · exact fny rny

/-- Claim C5, amended: Every `flushWork` invocation runs `flushImmediateWork`
(the immediate-work drain) on every exit path, also after a callback throws;
provided no ambient event is active (`currentEventStartTime = -1`) and
Immediate-priority callbacks do not throw, the maximal run of
Immediate-priority items at the *head* of the queue is drained before
`flushWork` returns: the final queue is empty or its head item is not
Immediate-priority.  (Immediate items sitting behind an earlier-expiring
non-Immediate item, or any items while an ambient event is active, are not
drained — see the counterexample.) -/
theorem C5_flushWork_flushes_leading_immediate (clock : Nat → Int)
    (yields : Nat → Bool) (didTimeout : Bool) (s : SchedState)
    (hces : s.currentEventStartTime = -1) (himm : ImmNoThrow s.queue) :
    (flushWork clock yields didTimeout s).s.queue = [] ∨
    ∃ m ms, (flushWork clock yields didTimeout s).s.queue = m :: ms ∧
      m.priorityLevel ≠ ImmediatePriority := by
  cases didTimeout with
  | true =>
    rw [flushWork_eq_true]
    obtain ⟨ra, -, -, -, rimm⟩ := flushTimedOutLoop_A clock 0
      { s with isExecutingCallback := true, currentDidTimeout := true }
    exact flushWorkFinally_drain _ _ (by rw [ra.2.2.1]; exact hces) (rimm himm)
  | false =>
    rcases hq0 : s.queue with _ | ⟨h0, t0⟩
    · rw [flushWork_eq_false_nil clock yields s hq0]
      exact flushWorkFinally_drain _ _ hces himm
    · rw [flushWork_eq_false_cons clock yields s h0 t0 hq0]
      obtain ⟨ra, -, -, rimm⟩ := flushUntilYieldLoop_A yields 0
        { s with isExecutingCallback := true, currentDidTimeout := false }
      exact flushWorkFinally_drain _ _ (by rw [ra.2.2.1]; exact hces) (rimm himm)

/-- Counterexample to C5 as stated.  Two concrete `flushWork` runs return with
an Immediate-priority item still in the queue: (a) a UserBlocking item with an
earlier expiration (250) sits at the head, so the Immediate item (expiration
999, scheduled later) is behind it and `flushImmediateWork` does not drain it;
(b) an ambient event is active (`currentEventStartTime = 5 ≠ -1`), so
`flushImmediateWork` returns without draining even though the head is
Immediate. -/
theorem C5_counterexample :
    ((flushWork (fun _ => 100) (fun _ => false) true
        ⟨[⟨0, Cb.ret, 2, 250⟩, ⟨1, Cb.ret, 1, 999⟩], false, false, 3, -1, -1,
          false, true⟩).s.queue.any
      (fun n => n.priorityLevel == ImmediatePriority) = true) ∧
    ((flushWork (fun _ => 0) (fun _ => false) true
        ⟨[⟨0, Cb.ret, 1, 4⟩], false, false, 3, 5, -1, false, true⟩).s.queue.any
      (fun n => n.priorityLevel == ImmediatePriority) = true) := by
  decide

/-- Witness for C2 at a concrete queue and constant clock. -/
theorem C2_witness :
    (∀ n ∈ [(⟨0, Cb.ret, 3, 50⟩ : CallbackNode), ⟨1, Cb.ret, 3, 200⟩],
      n.expirationTime ≤ (100 : Int) →
      Event.exec n.id ∈ (flushWork (fun _ => 100) (fun _ => false) true
        ⟨[⟨0, Cb.ret, 3, 50⟩, ⟨1, Cb.ret, 3, 200⟩], false, false, 3, -1, -1,
          false, true⟩).tr) ∧
    Event.yieldCheck ∉ (flushWork (fun _ => 100) (fun _ => false) true
        ⟨[⟨0, Cb.ret, 3, 50⟩, ⟨1, Cb.ret, 3, 200⟩], false, false, 3, -1, -1,
          false, true⟩).tr :=
  C2_flushWork_timeout_drains_expired (fun _ => 100) (fun _ => false)
    ⟨[⟨0, Cb.ret, 3, 50⟩, ⟨1, Cb.ret, 3, 200⟩], false, false, 3, -1, -1,
      false, true⟩
    (fun _ _ _ => le_refl _)
    (by simp only [QueueSorted]; decide)
    (by simp only [AllNoThrow]; decide)

/-- Witness for the amended C5 at a concrete queue whose head is an Immediate
item. -/
theorem C5_witness :
    (flushWork (fun _ => 0) (fun _ => false) true
        ⟨[⟨0, Cb.ret, 1, -1⟩, ⟨1, Cb.ret, 3, 5000⟩], false, false, 3, -1, -1,
          false, true⟩).s.queue = [] ∨
    ∃ m ms, (flushWork (fun _ => 0) (fun _ => false) true
        ⟨[⟨0, Cb.ret, 1, -1⟩, ⟨1, Cb.ret, 3, 5000⟩], false, false, 3, -1, -1,
          false, true⟩).s.queue = m :: ms ∧
      m.priorityLevel ≠ ImmediatePriority :=
  C5_flushWork_flushes_leading_immediate (fun _ => 0) (fun _ => false) true
    ⟨[⟨0, Cb.ret, 1, -1⟩, ⟨1, Cb.ret, 3, 5000⟩], false, false, 3, -1, -1,
      false, true⟩
    rfl
    (by simp only [ImmNoThrow]; decide)

/-- Constant `MAX_SIGNED_31_BIT_INT` from `maxSigned31BitInt.js` (= 2^30 - 1). -/
def MAX_SIGNED_31_BIT_INT : Int := 1073741823

/-- Constant `const UNIT_SIZE = 10` — 1 unit of expiration time represents 10ms. -/
def UNIT_SIZE : Int := 10

/-- Constant `const MAGIC_NUMBER_OFFSET = MAX_SIGNED_31_BIT_INT - 1`. -/
def MAGIC_NUMBER_OFFSET : Int := MAX_SIGNED_31_BIT_INT - 1

/-- Function `msToExpirationTime(ms)`: `MAGIC_NUMBER_OFFSET - ((ms / UNIT_SIZE) | 0)`.
The JS `| 0` truncates toward zero, which is `Int.tdiv`. -/
def msToExpirationTime (ms : Int) : Int :=
  MAGIC_NUMBER_OFFSET - Int.tdiv ms UNIT_SIZE

/-- Function `expirationTimeToMs(expirationTime)`. -/
def expirationTimeToMs (expirationTime : Int) : Int :=
  (MAGIC_NUMBER_OFFSET - expirationTime) * UNIT_SIZE

/-- Function `ceiling(num, precision)`: `(((num / precision) | 0) + 1) * precision` —
the *next* multiple of `precision` strictly above `num` (for exact multiples
it moves to the following boundary, unlike true ceiling division). -/
def ceiling (num precision : Int) : Int :=
  (Int.tdiv num precision + 1) * precision

/-- Function `computeExpirationBucket(currentTime, expirationInMs, bucketSizeMs)`.
The two inner divisions are exact in every use in the source
(`expirationInMs ∈ {5000, 500, 150}`, `bucketSizeMs ∈ {250, 100}`, all
multiples of `UNIT_SIZE = 10`), so `Int.tdiv` coincides with the JS float
division there. -/
def computeExpirationBucket (currentTime expirationInMs bucketSizeMs : Int) : Int :=
  MAGIC_NUMBER_OFFSET -
    ceiling (MAGIC_NUMBER_OFFSET - currentTime + Int.tdiv expirationInMs UNIT_SIZE)
      (Int.tdiv bucketSizeMs UNIT_SIZE)

/-- Constant `const LOW_PRIORITY_EXPIRATION = 5000`. -/
def LOW_PRIORITY_EXPIRATION : Int := 5000

/-- Constant `const LOW_PRIORITY_BATCH_SIZE = 250`. -/
def LOW_PRIORITY_BATCH_SIZE : Int := 250

/-- Function `computeAsyncExpiration(currentTime)` (Normal-priority async updates). -/
def computeAsyncExpiration (currentTime : Int) : Int :=
  computeExpirationBucket currentTime LOW_PRIORITY_EXPIRATION LOW_PRIORITY_BATCH_SIZE

/-- Constant `const HIGH_PRIORITY_EXPIRATION = __DEV__ ? 500 : 150` (production value). -/
def HIGH_PRIORITY_EXPIRATION : Int := 150

/-- Constant `const HIGH_PRIORITY_BATCH_SIZE = 100`. -/
def HIGH_PRIORITY_BATCH_SIZE : Int := 100

/-- Function `computeInteractiveExpiration(currentTime)`. -/
def computeInteractiveExpiration (currentTime : Int) : Int :=
  computeExpirationBucket currentTime HIGH_PRIORITY_EXPIRATION HIGH_PRIORITY_BATCH_SIZE

/-- Modelled from the spec: "round the combined value up to the nearest
batch-size boundary (ceiling division)" — the smallest multiple of
`precision` at or above `num` (ceiling division `⌈num / precision⌉ ·
precision`).  Used only to compare the spec's wording with the source's
`ceiling`. -/
def ceilingSpec (num precision : Int) : Int :=
  Int.tdiv (num + precision - 1) precision * precision

/-- Counterexample to the formula clause of C3: the source's `ceiling` is not
ceiling division — at an exact multiple of the batch size it advances to the
*next* boundary.  At anchor `currentTime = MAGIC_NUMBER_OFFSET` the combined
value is `500`, an exact multiple of the 25-unit bucket: the code produces
`MAGIC_NUMBER_OFFSET - 525`, ceiling division would produce
`MAGIC_NUMBER_OFFSET - 500`. -/
theorem C3_ceiling_counterexample :
    ceiling 500 25 = 525 ∧ ceilingSpec 500 25 = 500 ∧
    computeExpirationBucket MAGIC_NUMBER_OFFSET 5000 250 ≠
      MAGIC_NUMBER_OFFSET - ceilingSpec
        (MAGIC_NUMBER_OFFSET - MAGIC_NUMBER_OFFSET + Int.tdiv 5000 UNIT_SIZE)
        (Int.tdiv 250 UNIT_SIZE) := by
  refine ⟨by decide, by decide, by decide⟩

theorem computeAsyncExpiration_closed (m : Nat) :
    computeAsyncExpiration (msToExpirationTime (m : Int)) =
      MAGIC_NUMBER_OFFSET - 525 - 25 * ((m / 250 : Nat) : Int) := by
  unfold computeAsyncExpiration computeExpirationBucket ceiling msToExpirationTime
    LOW_PRIORITY_EXPIRATION LOW_PRIORITY_BATCH_SIZE UNIT_SIZE
  have e10 : Int.tdiv (m : Int) 10 = ((m / 10 : Nat) : Int) :=
    (Int.ofNat_tdiv m 10).symm
  have e5000 : Int.tdiv (5000 : Int) 10 = 500 := by decide
  have e250 : Int.tdiv (250 : Int) 10 = 25 := by decide
  rw [e10, e5000, e250]
  have ecomb : MAGIC_NUMBER_OFFSET - (MAGIC_NUMBER_OFFSET - ((m / 10 : Nat) : Int)) + 500 =
      ((m / 10 + 500 : Nat) : Int) := by
    push_cast
    ring
  rw [ecomb]
  have e25 : Int.tdiv ((m / 10 + 500 : Nat) : Int) 25 = ((( m / 10 + 500) / 25 : Nat) : Int) :=
    (Int.ofNat_tdiv (m / 10 + 500) 25).symm
  rw [e25]
  have hnat : (m / 10 + 500) / 25 = m / 250 + 20 := by omega
  rw [hnat]
  push_cast
  ring

/-- Claim C3, amended: Two Normal-priority requests whose times fall in the
same 250ms batch window receive identical expiration values, requests in
different windows receive different, ordered values, and the bucketing
computation rounds the combined anchor-plus-offset value *strictly up to the
next* batch-size boundary (one more than floor division, times the batch
size): the result is a multiple of the batch size, strictly greater than the
combined value, and at most one batch size above it.  (The claim's "nearest
boundary by ceiling division" fails at exact multiples — see the
counterexample.) -/
theorem C3_expiration_bucketing :
    (∀ m1 m2 : Nat, m1 / 250 = m2 / 250 →
      computeAsyncExpiration (msToExpirationTime m1) =
        computeAsyncExpiration (msToExpirationTime m2)) ∧
    (∀ m1 m2 : Nat, m1 / 250 < m2 / 250 →
      computeAsyncExpiration (msToExpirationTime m2) <
        computeAsyncExpiration (msToExpirationTime m1)) ∧
    (∀ num p : Int, 0 ≤ num → 0 < p →
      p ∣ ceiling num p ∧ num < ceiling num p ∧ ceiling num p ≤ num + p) := by
  refine ⟨?_, ?_, ?_⟩
  · intro m1 m2 h
    rw [computeAsyncExpiration_closed, computeAsyncExpiration_closed, h]
  · intro m1 m2 h
    rw [computeAsyncExpiration_closed, computeAsyncExpiration_closed]
    have hc : ((m1 / 250 : Nat) : Int) < ((m2 / 250 : Nat) : Int) := by
      exact_mod_cast h
    omega
  · intro num p h0 hp
    obtain ⟨n, rfl⟩ := Int.eq_ofNat_of_zero_le h0
    obtain ⟨q, rfl⟩ := Int.eq_ofNat_of_zero_le hp.le
    have hq : 0 < q := by exact_mod_cast hp
    have et : Int.tdiv (n : Int) (q : Int) = ((n / q : Nat) : Int) :=
      (Int.ofNat_tdiv n q).symm
    unfold ceiling
    rw [et]
    have h1 : q * (n / q) + n % q = n := Nat.div_add_mod n q
    have h2 : n % q < q := Nat.mod_lt _ hq
    have h3 : (n / q + 1) * q = q * (n / q) + q := by ring
    refine ⟨dvd_mul_left _ _, ?_, ?_⟩
    · exact_mod_cast (by omega : n < (n / q + 1) * q)
    · exact_mod_cast (by omega : (n / q + 1) * q ≤ n + q)

/-- Witness for the amended C3: calls at 100ms and 150ms (same 250ms window)
coalesce, a call at 300ms (next window) gets a smaller, hence ordered, value,
and the bucket rounding facts at `num = 500`, `p = 25`. -/
theorem C3_expiration_bucketing_witness :
    computeAsyncExpiration (msToExpirationTime 100) =
      computeAsyncExpiration (msToExpirationTime 150) ∧
    computeAsyncExpiration (msToExpirationTime 300) <
      computeAsyncExpiration (msToExpirationTime 100) ∧
    ((25 : Int) ∣ ceiling 500 25 ∧ (500 : Int) < ceiling 500 25 ∧
      ceiling 500 25 ≤ 500 + 25) :=
  ⟨C3_expiration_bucketing.1 100 150 (by decide),
   C3_expiration_bucketing.2.1 100 300 (by decide),
   C3_expiration_bucketing.2.2 500 25 (by decide) (by decide)⟩

theorem unstable_scheduleCallback_fst (now : Int) (cb : Cb) (newId : Nat)
    (options : Option Int) (s : SchedState) :
    (unstable_scheduleCallback now cb newId options s).1 =
      ⟨newId, cb, s.currentPriorityLevel,
        match options with
        | some timeout =>
          (if s.currentEventStartTime ≠ -1 then s.currentEventStartTime else now) +
            timeout
        | none =>
          if s.currentPriorityLevel = ImmediatePriority then
            (if s.currentEventStartTime ≠ -1 then s.currentEventStartTime else now) +
              IMMEDIATE_PRIORITY_TIMEOUT
          else if s.currentPriorityLevel = UserBlockingPriority then
            (if s.currentEventStartTime ≠ -1 then s.currentEventStartTime else now) +
              USER_BLOCKING_PRIORITY
          else if s.currentPriorityLevel = IdlePriority then
            (if s.currentEventStartTime ≠ -1 then s.currentEventStartTime else now) +
              IDLE_PRIORITY
          else if s.currentPriorityLevel = LowPriority then
            (if s.currentEventStartTime ≠ -1 then s.currentEventStartTime else now) +
              LOW_PRIORITY_TIMEOUT
          else
            (if s.currentEventStartTime ≠ -1 then s.currentEventStartTime else now) +
              NORMAL_PRIORITY_TIMEOUT⟩ := by
  unfold unstable_scheduleCallback
  dsimp only
  repeat' split
  all_goals rfl

theorem unstable_scheduleCallback_state (now : Int) (cb : Cb) (newId : Nat)
    (options : Option Int) (s : SchedState) :
    (unstable_scheduleCallback now cb newId options s).2.1.currentEventStartTime =
      s.currentEventStartTime ∧
    (unstable_scheduleCallback now cb newId options s).2.1.currentPriorityLevel =
      s.currentPriorityLevel := by
  unfold unstable_scheduleCallback
  dsimp only
  repeat' split
  all_goals
    first
      | exact ⟨(ensureHost_state _).2.2.2.1, (ensureHost_state _).2.1⟩
      | exact ⟨rfl, rfl⟩

/-- Claim C4: `unstable_scheduleCallback` computes the new item's expiration as
its start time (the ambient event start time if inside an event, else `now`)
plus the ambient priority class's default timeout — Immediate: `-1`,
UserBlocking: `250`, Normal (and any other level): `5000`, Low: `10000`,
Idle: `1073741823` — unless an explicit numeric `options.timeout` is
supplied, in which case the expiration is start time plus that timeout. -/
theorem C4_scheduleCallback_expiration (now : Int) (cb : Cb) (newId : Nat)
    (options : Option Int) (s : SchedState) :
    (unstable_scheduleCallback now cb newId options s).1.expirationTime =
      (if s.currentEventStartTime ≠ -1 then s.currentEventStartTime else now) +
      (match options with
       | some timeout => timeout
       | none =>
         if s.currentPriorityLevel = ImmediatePriority then -1
         else if s.currentPriorityLevel = UserBlockingPriority then 250
         else if s.currentPriorityLevel = IdlePriority then 1073741823
         else if s.currentPriorityLevel = LowPriority then 10000
         else 5000) := by
  rw [unstable_scheduleCallback_fst]
  cases options with
  | some t => rfl
  | none =>
    dsimp only
    split_ifs <;>
      simp [IMMEDIATE_PRIORITY_TIMEOUT, USER_BLOCKING_PRIORITY, IDLE_PRIORITY,
        maxSigned31BitInt, LOW_PRIORITY_TIMEOUT, NORMAL_PRIORITY_TIMEOUT]

/-- Claim C10: When an ambient event is active (`currentEventStartTime ≠ -1`),
`unstable_scheduleCallback` takes the start time from the shared event start
time rather than the instantaneous clock, so two items scheduled within one
event (same ambient priority, same options, arbitrary and different clock
readings `now1`, `now2`) receive identical expiration values. -/
theorem C10_event_start_time_coalescing (now1 now2 : Int) (cb1 cb2 : Cb)
    (i1 i2 : Nat) (options : Option Int) (s : SchedState)
    (h : s.currentEventStartTime ≠ -1) :
    (unstable_scheduleCallback now2 cb2 i2 options
        (unstable_scheduleCallback now1 cb1 i1 options s).2.1).1.expirationTime =
      (unstable_scheduleCallback now1 cb1 i1 options s).1.expirationTime := by
  have hces := (unstable_scheduleCallback_state now1 cb1 i1 options s).1
  have hcpl := (unstable_scheduleCallback_state now1 cb1 i1 options s).2
  rw [unstable_scheduleCallback_fst, unstable_scheduleCallback_fst]
  dsimp only
  rw [hces, hcpl]
  simp only [if_pos h]

/-- Witness for C10: two Normal-priority items scheduled inside one event
(event start time 7) with clock readings 100 and 200 get equal expirations. -/
theorem C10_event_start_time_coalescing_witness :
    (unstable_scheduleCallback 200 Cb.ret 2 none
        (unstable_scheduleCallback 100 Cb.ret 1 none
          ⟨[], false, false, 3, 7, -1, false, false⟩).2.1).1.expirationTime =
      (unstable_scheduleCallback 100 Cb.ret 1 none
        ⟨[], false, false, 3, 7, -1, false, false⟩).1.expirationTime :=
  C10_event_start_time_coalescing 100 200 Cb.ret Cb.ret 1 2 none
    ⟨[], false, false, 3, 7, -1, false, false⟩ (by decide)

/-- Claim C6: `unstable_shouldYield` returns `true` exactly when the synthetic
timeout flag (`currentDidTimeout`) is not set AND either the queue is
non-empty with its head's expiration strictly smaller than the
currently-executing item's expiration, or the host yield controller
(`shouldYieldToHost`, whose answer is `hostYield`) says to yield. -/
theorem C6_shouldYield_iff (hostYield : Bool) (s : SchedState) :
    unstable_shouldYield hostYield s = true ↔
      (s.currentDidTimeout = false ∧
        ((∃ n rest, s.queue = n :: rest ∧
            n.expirationTime < s.currentExpirationTime) ∨ hostYield = true)) := by
  obtain ⟨q, dt, sp, pl, es, ce, ec, hcs⟩ := s
  cases q with
  | nil => cases dt <;> cases hostYield <;> simp [unstable_shouldYield]
  | cons n rest => cases dt <;> cases hostYield <;> simp [unstable_shouldYield]

/-- Claim C8: During `unstable_runWithPriority(P, fn)` with `P` a valid priority
level, the handler only ever runs in a state where
`unstable_getCurrentPriorityLevel` returns `P` (the result depends only on the
handler's behaviour at such states), and after the call returns — whether the
handler returns normally or throws — the ambient priority level equals its
value immediately before the call. -/
theorem C8_runWithPriority (now : Int) (eventHandler : SchedState → FlushResult)
    (p : Nat) (s : SchedState)
    (hp : p = ImmediatePriority ∨ p = UserBlockingPriority ∨ p = NormalPriority ∨
      p = LowPriority ∨ p = IdlePriority) :
    (∀ g : SchedState → FlushResult,
      (∀ u, unstable_getCurrentPriorityLevel u = p → g u = eventHandler u) →
      unstable_runWithPriority now g p s = unstable_runWithPriority now eventHandler p s) ∧
    (unstable_runWithPriority now eventHandler p s).s.currentPriorityLevel =
      s.currentPriorityLevel := by
  constructor
  · intro g hg
    unfold unstable_runWithPriority
    dsimp only
    rw [if_pos hp]
    rw [hg { s with currentPriorityLevel := p, currentEventStartTime := now } rfl]
  · unfold unstable_runWithPriority
    dsimp only
    rw [(flushImmediateWork_A _).1]

/-- Witness for C8 at `P = UserBlockingPriority` with an identity handler and
ambient priority Normal. -/
theorem C8_runWithPriority_witness :
    (∀ g : SchedState → FlushResult,
      (∀ u, unstable_getCurrentPriorityLevel u = UserBlockingPriority →
        g u = (fun u0 => (⟨u0, [], false⟩ : FlushResult)) u) →
      unstable_runWithPriority 0 g UserBlockingPriority
          ⟨[], false, false, 3, -1, -1, false, false⟩ =
        unstable_runWithPriority 0 (fun u0 => ⟨u0, [], false⟩) UserBlockingPriority
          ⟨[], false, false, 3, -1, -1, false, false⟩) ∧
    (unstable_runWithPriority 0 (fun u0 => ⟨u0, [], false⟩) UserBlockingPriority
        ⟨[], false, false, 3, -1, -1, false, false⟩).s.currentPriorityLevel = 3 :=
  C8_runWithPriority 0 (fun u0 => ⟨u0, [], false⟩) UserBlockingPriority
    ⟨[], false, false, 3, -1, -1, false, false⟩ (Or.inr (Or.inl rfl))

/-- Claim C9: When the head item's callback throws during `flushFirstCallback`,
the item has already been unlinked before the callback is invoked — the
resulting queue is exactly the former tail, so the queue stays consistent —
and the ambient `currentPriorityLevel` and `currentExpirationTime` are
restored to their pre-call values by the `finally` block, while the exception
propagates (`err = true`). -/
theorem C9_throwing_callback_state (s : SchedState) (n : CallbackNode)
    (rest : List CallbackNode) (hq : s.queue = n :: rest)
    (hexn : n.callback = Cb.exn) :
    (flushFirstCallback s).err = true ∧
    (flushFirstCallback s).s.queue = rest ∧
    (flushFirstCallback s).s.currentPriorityLevel = s.currentPriorityLevel ∧
    (flushFirstCallback s).s.currentExpirationTime = s.currentExpirationTime := by
  obtain ⟨q', hcs, extra, heq, hcase, -, -⟩ := flushFirstCallback_master hq
  rw [heq]
  refine ⟨by simp [hexn], ?_, rfl, rfl⟩
  rcases hcase with rfl | ⟨c, hc, rfl⟩
  · rfl
  · rw [hexn] at hc
    exact Cb.noConfusion hc

/-- Witness for C9 at a concrete queue whose head callback throws. -/
theorem C9_throwing_callback_state_witness :
    (flushFirstCallback
        ⟨[⟨0, Cb.exn, 3, 10⟩, ⟨1, Cb.ret, 3, 20⟩], false, false, 4, -1, 99,
          false, false⟩).err = true ∧
    (flushFirstCallback
        ⟨[⟨0, Cb.exn, 3, 10⟩, ⟨1, Cb.ret, 3, 20⟩], false, false, 4, -1, 99,
          false, false⟩).s.queue = [⟨1, Cb.ret, 3, 20⟩] ∧
    (flushFirstCallback
        ⟨[⟨0, Cb.exn, 3, 10⟩, ⟨1, Cb.ret, 3, 20⟩], false, false, 4, -1, 99,
          false, false⟩).s.currentPriorityLevel = 4 ∧
    (flushFirstCallback
        ⟨[⟨0, Cb.exn, 3, 10⟩, ⟨1, Cb.ret, 3, 20⟩], false, false, 4, -1, 99,
          false, false⟩).s.currentExpirationTime = 99 :=
  C9_throwing_callback_state
    ⟨[⟨0, Cb.exn, 3, 10⟩, ⟨1, Cb.ret, 3, 20⟩], false, false, 4, -1, 99,
      false, false⟩
    ⟨0, Cb.exn, 3, 10⟩ [⟨1, Cb.ret, 3, 20⟩] rfl rfl

theorem removeFirstById_no_id {i : Nat} {xs : List CallbackNode}
    (hnd : (xs.map (fun n => n.id)).Nodup) :
    ∀ x ∈ removeFirstById i xs, x.id ≠ i := by
  induction xs with
  | nil => simp [removeFirstById]
  | cons n rest ih =>
    simp only [List.map_cons, List.nodup_cons] at hnd
    intro x hx
    simp only [removeFirstById] at hx
    split at hx
    · rename_i hni
      intro hxi
      apply hnd.1
      rw [List.mem_map]
      exact ⟨x, hx, by rw [hxi, hni]⟩
    · rename_i hni
      rcases List.mem_cons.1 hx with rfl | hx
      · exact hni
      · exact ih hnd.2 x hx

theorem unstable_cancelCallback_not_mem {i : Nat} {s : SchedState}
    (h : ∀ x ∈ s.queue, x.id ≠ i) : unstable_cancelCallback i s = s := by
  unfold unstable_cancelCallback
  rw [if_neg]
  simp only [List.any_eq_true, decide_eq_true_eq]
  rintro ⟨x, hx, hxi⟩
  exact h x hx hxi

theorem flushWork_exec_ids (clock : Nat → Int) (yields : Nat → Bool)
    (didTimeout : Bool) (s : SchedState) :
    ∀ j, Event.exec j ∈ (flushWork clock yields didTimeout s).tr →
      ∃ m0 ∈ s.queue, j = m0.id := by
  cases didTimeout with
  | true =>
    intro j hj
    rw [flushWork_eq_true] at hj
    obtain ⟨-, hi, he, -, -⟩ := flushTimedOutLoop_A clock 0
      { s with isExecutingCallback := true, currentDidTimeout := true }
    obtain ⟨-, -, fexec, -, -, -⟩ := flushWorkFinally_tr s.currentDidTimeout
      (flushTimedOutLoop clock 0
        { s with isExecutingCallback := true, currentDidTimeout := true })
    rcases fexec j hj with hj2 | ⟨m0, hm0, hid⟩
    · exact he j hj2
    · obtain ⟨m1, hm1, hid1⟩ := hi m0 hm0
      exact ⟨m1, hm1, hid.trans hid1⟩
  | false =>
    intro j hj
    rcases hq0 : s.queue with _ | ⟨h0, t0⟩
    · rw [flushWork_eq_false_nil clock yields s hq0] at hj
      obtain ⟨-, -, fexec, -, -, -⟩ := flushWorkFinally_tr s.currentDidTimeout
        ⟨{ s with isExecutingCallback := true, currentDidTimeout := false }, [], false⟩
      rcases fexec j hj with hj2 | ⟨m0, hm0, hid⟩
      · exact absurd hj2 (List.not_mem_nil _)
      · exfalso
        have hm0s : m0 ∈ s.queue := hm0
        rw [hq0] at hm0s
        exact absurd hm0s (List.not_mem_nil _)
    · rw [flushWork_eq_false_cons clock yields s h0 t0 hq0] at hj
      obtain ⟨-, hi, he, -⟩ := flushUntilYieldLoop_A yields 0
        { s with isExecutingCallback := true, currentDidTimeout := false }
      obtain ⟨-, -, fexec, -, -, -⟩ := flushWorkFinally_tr s.currentDidTimeout
        (flushUntilYieldLoop yields 0
          { s with isExecutingCallback := true, currentDidTimeout := false })
      rcases fexec j hj with hj2 | ⟨m0, hm0, hid⟩
      · obtain ⟨m1, hm1, hid1⟩ := he j hj2
        have hm1s : m1 ∈ s.queue := hm1
        exact ⟨m1, hq0 ▸ hm1s, hid1⟩
      · obtain ⟨m1, hm1, hid1⟩ := hi m0 hm0
        have hm1s : m1 ∈ s.queue := hm1
        exact ⟨m1, hq0 ▸ hm1s, hid.trans hid1⟩

/-- Claim C7: `unstable_cancelCallback` on a queued handle removes the item:
afterwards no queue entry carries the cancelled identity, and no subsequent
`flushWork` run ever executes a callback with that identity (membership in
the queue list models the node's non-null link fields, so removal also
represents clearing them).  Calling it again on the same handle, or on a
handle that already ran or was never enqueued (its links are null), is a
no-op: no error and no further state change. -/
theorem C7_cancelCallback (i : Nat) (s : SchedState)
    (hnd : (s.queue.map (fun n => n.id)).Nodup) :
    (∀ x ∈ (unstable_cancelCallback i s).queue, x.id ≠ i) ∧
    unstable_cancelCallback i (unstable_cancelCallback i s) =
      unstable_cancelCallback i s ∧
    ((∀ x ∈ s.queue, x.id ≠ i) → unstable_cancelCallback i s = s) ∧
    (∀ clock yields didTimeout, Event.exec i ∉
      (flushWork clock yields didTimeout (unstable_cancelCallback i s)).tr) := by
  have h1 : ∀ x ∈ (unstable_cancelCallback i s).queue, x.id ≠ i := by
    unfold unstable_cancelCallback
    split
    · exact removeFirstById_no_id hnd
    · rename_i hc
      simp only [List.any_eq_true, decide_eq_true_eq] at hc
      push_neg at hc
      exact hc
  refine ⟨h1, unstable_cancelCallback_not_mem h1,
    fun h => unstable_cancelCallback_not_mem h, ?_⟩
  intro clock yields didTimeout hc
  obtain ⟨m0, hm0, hid⟩ := flushWork_exec_ids clock yields didTimeout _ i hc
  exact h1 m0 hm0 hid.symm

/-- Witness for C7: cancelling handle 1 in a two-item queue. -/
theorem C7_cancelCallback_witness :
    (∀ x ∈ (unstable_cancelCallback 1
        ⟨[⟨0, Cb.ret, 3, 10⟩, ⟨1, Cb.ret, 3, 20⟩], false, false, 3, -1, -1,
          false, false⟩).queue, x.id ≠ 1) ∧
    unstable_cancelCallback 1 (unstable_cancelCallback 1
        ⟨[⟨0, Cb.ret, 3, 10⟩, ⟨1, Cb.ret, 3, 20⟩], false, false, 3, -1, -1,
          false, false⟩) =
      unstable_cancelCallback 1
        ⟨[⟨0, Cb.ret, 3, 10⟩, ⟨1, Cb.ret, 3, 20⟩], false, false, 3, -1, -1,
          false, false⟩ ∧
    ((∀ x ∈ ([⟨0, Cb.ret, 3, 10⟩, ⟨1, Cb.ret, 3, 20⟩] : List CallbackNode),
        x.id ≠ 1) →
      unstable_cancelCallback 1
          ⟨[⟨0, Cb.ret, 3, 10⟩, ⟨1, Cb.ret, 3, 20⟩], false, false, 3, -1, -1,
            false, false⟩ =
        ⟨[⟨0, Cb.ret, 3, 10⟩, ⟨1, Cb.ret, 3, 20⟩], false, false, 3, -1, -1,
          false, false⟩) ∧
    (∀ clock yields didTimeout, Event.exec 1 ∉
      (flushWork clock yields didTimeout (unstable_cancelCallback 1
        ⟨[⟨0, Cb.ret, 3, 10⟩, ⟨1, Cb.ret, 3, 20⟩], false, false, 3, -1, -1,
          false, false⟩)).tr) :=
  C7_cancelCallback 1
    ⟨[⟨0, Cb.ret, 3, 10⟩, ⟨1, Cb.ret, 3, 20⟩], false, false, 3, -1, -1,
      false, false⟩ (by decide)
